import Mathlib

/-!
Swan Mesos scheduler core: agent/offer registry and launch engine.

A shallow embedding of `mesos/agent.go` and `mesos/scheduler.go`.

Go maps keyed by strings are association lists (`SMap`).  A Go map has no
iteration order; the order of the association list is one of the orders the
Go runtime may produce.  Pointers to agents are represented by the agent's key
in the scheduler's agent map: a mutation through the pointer is a write-back
at that key.  Task handles are stored by value under their task id.

`LaunchTasks` is run in isolation: no other goroutine changes the registry
while it polls, and the number of polls a timer allows is an input.
-/

namespace Swan

/-! ## String-keyed maps -/

/-- A Go `map[string]V`. -/
abbrev SMap (V : Type) := List (String × V)

namespace SMap

variable {V : Type}

/-- The Go read `v, ok := m[k]`. -/
def get : SMap V → String → Option V
  | [], _ => none
  | (k', v) :: m, k => if k' = k then some v else get m k

/-- The Go write `m[k] = v`. -/
def set : SMap V → String → V → SMap V
  | [], k, v => [(k, v)]
  | (k', v') :: m, k, v => if k' = k then (k, v) :: m else (k', v') :: set m k v

/-- The Go builtin `delete(m, k)`. -/
def del : SMap V → String → SMap V
  | [], _ => []
  | (k', v) :: m, k => if k' = k then del m k else (k', v) :: del m k

/-- The values of the map, as produced by `for _, v := range m`. -/
def values (m : SMap V) : List V := m.map Prod.snd

end SMap

/-! ## Offers, task handles, agents -/

/-- Modelled from the spec: the type `Offer` (declared outside `agent.go` and
`scheduler.go`), with the fields read through `GetId`, `GetAgentId`,
`GetHostname` and `GetPorts`; `ports` is the expanded port list. -/
structure Offer where
  id : String
  agentId : String
  hostname : String
  ports : List Nat
  deriving DecidableEq, Repr

/-- Modelled from the spec: the type `types.TaskConfig`, with the fields read
by `launch`. -/
structure TaskConfig where
  IP : String
  Network : String
  Port : Nat
  deriving DecidableEq, Repr

/-- Modelled from the spec: the task handle `Task`, with the embedded
`TaskInfo` fields `TaskId`, `Name`, `AgentId` and the configuration `cfg`, a
pointer that is nil (`none`) for a handle created without configuration. -/
structure Task where
  taskId : String
  name : String
  cfg : Option TaskConfig
  agentId : Option String
  deriving DecidableEq, Repr

/-- Modelled from the spec: the method `Task.ID`, the value of the task id. -/
def Task.ID (t : Task) : String := t.taskId

/-- Modelled from the spec: the constructor `NewTask(cfg, id, name)`;
`KillTask` calls it with a nil configuration. -/
def NewTask (cfg : Option TaskConfig) (id name : String) : Task :=
  { taskId := id, name := name, cfg := cfg, agentId := none }

/-- The struct `Agent` of `agent.go` (attributes are not read by the operations
modelled here). -/
structure Agent where
  id : String
  hostname : String
  offers : SMap Offer
  tasks : SMap Task
  deriving DecidableEq, Repr

/-- The constructor `newAgent`. -/
def newAgent (id hostname : String) : Agent :=
  { id := id, hostname := hostname, offers := [], tasks := [] }

namespace Agent

/-- `Agent.addOffer`. -/
def addOffer (a : Agent) (offer : Offer) : Agent :=
  { a with offers := a.offers.set offer.id offer }

/-- `Agent.removeOffer`: the flag `found` and the agent after the call. -/
def removeOffer (a : Agent) (offerID : String) : Bool × Agent :=
  match a.offers.get offerID with
  | some _ => (true, { a with offers := a.offers.del offerID })
  | none => (false, a)

/-- `Agent.empty`. -/
def empty (a : Agent) : Bool :=
  a.offers.length == 0 && a.tasks.length == 0

/-- `Agent.getOffer`. -/
def getOffer (a : Agent) (offerId : String) : Option Offer :=
  a.offers.get offerId

/-- `Agent.getOffers`. -/
def getOffers (a : Agent) : List Offer := a.offers.values

/-- `Agent.addTask`. -/
def addTask (a : Agent) (t : Task) : Agent :=
  { a with tasks := a.tasks.set t.taskId t }

/-- `Agent.getTask`. -/
def getTask (a : Agent) (taskId : String) : Option Task :=
  a.tasks.get taskId

/-- `Agent.removeTask`. -/
def removeTask (a : Agent) (taskId : String) : Agent :=
  match a.tasks.get taskId with
  | none => a
  | some _ => { a with tasks := a.tasks.del taskId }

/-- `Agent.getTasks`. -/
def getTasks (a : Agent) : List Task := a.tasks.values

end Agent

/-! ## The scheduler's registry -/

/-- The part of `Scheduler` the registry and launch operations act on: the agent
map, the connection status and the framework id. -/
structure Scheduler where
  agents : SMap Agent
  status : String
  frameworkId : Option String
  deriving DecidableEq, Repr

/-- The scheduler as `NewScheduler` allocates it: an empty agent map. -/
def emptyRegistry : Scheduler :=
  { agents := [], status := "", frameworkId := none }

namespace Scheduler

/-- `Scheduler.addAgent`. -/
def addAgent (s : Scheduler) (agent : Agent) : Scheduler :=
  { s with agents := s.agents.set agent.id agent }

/-- `Scheduler.getAgent`. -/
def getAgent (s : Scheduler) (agentId : String) : Option Agent :=
  s.agents.get agentId

/-- `Scheduler.removeAgent`. -/
def removeAgent (s : Scheduler) (agentId : String) : Scheduler :=
  { s with agents := s.agents.del agentId }

/-- `Scheduler.getAgents`. -/
def getAgents (s : Scheduler) : List Agent := s.agents.values

/-- The effect of mutating, through the pointer returned by `getAgent agentId`,
the agent stored in the map. -/
def writeAgent (s : Scheduler) (agentId : String) (a : Agent) : Scheduler :=
  { s with agents := s.agents.set agentId a }

/-- `Scheduler.addOffer`. -/
def addOffer (s : Scheduler) (offer : Offer) : Scheduler :=
  match s.getAgent offer.agentId with
  | none => s
  | some a => s.writeAgent offer.agentId (a.addOffer offer)

/-- `Scheduler.removeOffer`: the returned flag and the scheduler after the call. -/
def removeOffer (s : Scheduler) (offer : Offer) : Bool × Scheduler :=
  match s.getAgent offer.agentId with
  | none => (false, s)
  | some a =>
    let r := a.removeOffer offer.id
    let s1 := s.writeAgent offer.agentId r.2
    if r.2.empty then (r.1, s1.removeAgent offer.agentId) else (r.1, s1)

end Scheduler

/-! ## Statuses, calls and the collaborators of the launch engine -/

/-- Modelled from the spec: the enumeration `mesosproto.TaskState`, declared in
the package `mesosproto`; the states are those named by the task-handle
classification. -/
inductive TaskState where
  | TASK_STAGING | TASK_STARTING | TASK_RUNNING | TASK_KILLING | TASK_FINISHED
  | TASK_FAILED | TASK_KILLED | TASK_ERROR | TASK_LOST | TASK_DROPPED
  | TASK_UNREACHABLE | TASK_GONE | TASK_GONE_BY_OPERATOR | TASK_UNKNOWN
  deriving DecidableEq, Repr

/-- The method `TaskState.String`: the name of the enumeration value. -/
def TaskState.String : TaskState → String
  | .TASK_STAGING => "TASK_STAGING"
  | .TASK_STARTING => "TASK_STARTING"
  | .TASK_RUNNING => "TASK_RUNNING"
  | .TASK_KILLING => "TASK_KILLING"
  | .TASK_FINISHED => "TASK_FINISHED"
  | .TASK_FAILED => "TASK_FAILED"
  | .TASK_KILLED => "TASK_KILLED"
  | .TASK_ERROR => "TASK_ERROR"
  | .TASK_LOST => "TASK_LOST"
  | .TASK_DROPPED => "TASK_DROPPED"
  | .TASK_UNREACHABLE => "TASK_UNREACHABLE"
  | .TASK_GONE => "TASK_GONE"
  | .TASK_GONE_BY_OPERATOR => "TASK_GONE_BY_OPERATOR"
  | .TASK_UNKNOWN => "TASK_UNKNOWN"

/-- Modelled from the spec: the type `mesosproto.TaskStatus`, with the fields
read by the scheduler.  `source` and
`reason` hold the names rendered by the `String` methods of their enumerations;
`healthy` and `uuid` are optional fields. -/
structure TaskStatus where
  taskId : String
  agentId : String
  state : TaskState
  message : String
  source : String
  reason : String
  healthy : Option Bool
  uuid : Option String
  deriving DecidableEq, Repr

/-- The getter `GetHealthy`: false when the field is unset. -/
def TaskStatus.GetHealthy (st : TaskStatus) : Bool := st.healthy.getD false

/-- A value stored under a key of a JSON object. -/
inductive JsonValue where
  | str (s : String)
  | bool (b : Bool)
  deriving DecidableEq, Repr

/-- A JSON object as `json.Marshal` renders a `map[string]interface{}`: its
members, in increasing order of the keys. -/
abbrev JsonObject := List (String × JsonValue)

/-- The calls the scheduler sends to the master. -/
inductive Call where
  | subscribe (frameworkId : Option String)
  | accept (frameworkId : Option String) (offerIds : List String) (taskInfos : List Task)
  | decline (frameworkId : Option String) (offerIds : List String)
  | kill (frameworkId : Option String) (taskId agentId : String)
  | acknowledge (frameworkId : Option String) (agentId taskId uuid : String)
  | reconcile (frameworkId : Option String) (tasks : List (String × String))
  deriving DecidableEq, Repr

/-- Modelled from the spec: the persisted `types.Task`, with the fields that
`launch` reads and writes. -/
structure StoreTask where
  ID : String
  AgentId : String
  IP : String
  Port : Nat
  deriving DecidableEq, Repr

/-- Modelled from the spec: the two store operations used by `launch`
(`GetTask`, `UpdateTask`), over a store state `σ`; an `Except.error` carries
the text of the returned error. -/
structure Store (σ : Type) where
  GetTask : σ → String → String → Except String StoreTask
  UpdateTask : σ → String → StoreTask → Except String σ

/-- The collaborators of the launch engine that are outside `scheduler.go`:
the filter chain, the ranking strategy, the HTTP client (`Send` answers a call
with a status code or a send error), the store, the `Task` methods `IsDone` and
`DetectError`, the statuses delivered on each task's status channel, and, for
the i-th run of the filter step, the number of polls made before the
resource-timeout timer fires. -/
structure Env (σ : Type) where
  ApplyFilters : Option TaskConfig → List Agent → List Agent
  RankAndSort : List Agent → List Agent
  Send : Call → Except String Nat
  store : Store σ
  IsDone : Task → TaskStatus → Bool
  DetectError : Task → TaskStatus → Option String
  statuses : String → List TaskStatus
  timer : Nat → Nat

/-- The error value `errResourceNotEnough`. -/
def errResourceNotEnough : String := "resource not enough"

/-- The constant `http.StatusAccepted`. -/
def StatusAccepted : Nat := 202

/-! ## `DetectError` -/

/-- `Scheduler.DetectError`: `none` is the nil error; `some obj` is the error
whose text is the JSON encoding of `obj`. -/
def DetectError (status : TaskStatus) : Option JsonObject :=
  let state := status.state
  match state with
  | .TASK_FAILED | .TASK_ERROR | .TASK_LOST | .TASK_DROPPED | .TASK_UNREACHABLE
  | .TASK_GONE | .TASK_GONE_BY_OPERATOR | .TASK_UNKNOWN =>
    some [("healthy", .bool status.GetHealthy),
          ("message", .str status.message),
          ("reason", .str status.reason),
          ("source", .str status.source),
          ("state", .str state.String)]
  | _ => none

/-! ## `launch` -/

/-- The ports gathered by the first loop of `launch`: the ports of the offers,
in the order of the offer list. -/
def gatherPorts (offers : List Offer) : List Nat :=
  offers.foldl (fun ports offer => ports ++ offer.ports) []

/-- Why a run of `launch` stops early: an index-out-of-range panic, the
nil-pointer panic of reading or writing the configuration of a handle that has
none, or a returned error. -/
inductive Stop where
  | panic
  | nilConfig
  | error (text : String)
  deriving DecidableEq, Repr

/-- One iteration, at index `i`, of the loop of `launch` that assigns the port
and the agent id.  The write `task.cfg.Port = ports[i]` panics on a handle
without configuration, the read `offers[0]` on an empty offer list; the call
`task.Build()`, whose code is outside `scheduler.go`, is taken to build the
`TaskInfo` from the handle without further effect. -/
def assignTask (offers : List Offer) (ports : List Nat) (i : Nat) (task : Task) :
    Except Stop Task :=
  let task1 : Except Stop Task :=
    if h : i < ports.length then
      match task.cfg with
      | none => .error .nilConfig
      | some cfg => .ok { task with cfg := some { cfg with Port := ports[i] } }
    else .ok task
  match task1 with
  | .error stop => .error stop
  | .ok task1 =>
    match offers[0]? with
    | none => .error .panic
    | some o => .ok { task1 with agentId := some o.agentId }

/-- The loop `for i, task := range tasks` of `launch`, from index `i` on: the
handles as the loop leaves them (those before a panic amended, the others
untouched) and the panic that stopped it, if any. -/
def assignLoop (offers : List Offer) (ports : List Nat) :
    Nat → List Task → List Task × Option Stop
  | _, [] => ([], none)
  | i, task :: rest =>
    match assignTask offers ports i task with
    | .error stop => (task :: rest, some stop)
    | .ok task1 =>
      let r := assignLoop offers ports (i + 1) rest
      (task1 :: r.1, r.2)

/-- The part of a character list before and after its first `.`, if it has one. -/
def cutAtDot : List Char → Option (List Char × List Char)
  | [] => none
  | c :: cs =>
    if c = '.' then some ([], cs)
    else match cutAtDot cs with
      | none => none
      | some p => some (c :: p.1, p.2)

/-- The library call `strings.SplitN(s, ".", 2)`. -/
def SplitN2 (s : String) : List String :=
  match cutAtDot s.data with
  | none => [s]
  | some p => [String.mk p.1, String.mk p.2]

/-- The state after the store loop of `launch`: the store, the records passed
to successful `UpdateTask` calls (with the app id), and why the loop stopped
early, if it did. -/
structure Persisted (σ : Type) where
  db : σ
  writes : List (String × StoreTask)
  stop : Option Stop

/-- The loop `for _, t := range tasks` of `launch` that reads, amends and writes
the persisted record of each task.  The reads of `t.cfg` panic on a handle
without configuration. -/
def persistLoop {σ : Type} (store : Store σ) (appId : String) (offers : List Offer) :
    σ → List Task → Persisted σ
  | db, [] => ⟨db, [], none⟩
  | db, t :: rest =>
    match store.GetTask db appId t.taskId with
    | .error err => ⟨db, [], some (.error ("find task from zk got error: " ++ err))⟩
    | .ok task =>
      match t.cfg with
      | none => ⟨db, [], some .nilConfig⟩
      | some cfg =>
        let task1 := { task with AgentId := t.agentId.getD "", IP := cfg.IP }
        let task2 : Option StoreTask :=
          if cfg.Network = "host" ∨ cfg.Network = "bridge" then
            match offers[0]? with
            | none => none
            | some o => some { task1 with IP := o.hostname }
          else some task1
        match task2 with
        | none => ⟨db, [], some .panic⟩
        | some task2 =>
          let task3 := { task2 with Port := cfg.Port }
          match store.UpdateTask db appId task3 with
          | .error err => ⟨db, [], some (.error ("update task status error: " ++ err))⟩
          | .ok db1 =>
            let r := persistLoop store appId offers db1 rest
            ⟨r.db, (appId, task3) :: r.writes, r.stop⟩

/-- How a call of `launch` or `LaunchTasks` ends: with an index-out-of-range
panic, with the nil-pointer panic of a handle without configuration, with an
error and no result map, with a result map and no error, blocked for ever on a
status channel, or still polling when the fuel of the model ran out. -/
inductive Ending where
  | panicked
  | nilConfig
  | failed (err : String)
  | returned (rets : SMap (Option String))
  | awaiting
  | polling
  deriving DecidableEq, Repr

/-- The ending of a call stopped early. -/
def Stop.ending : Stop → Ending
  | .panic => .panicked
  | .nilConfig => .nilConfig
  | .error text => .failed text

/-- Whether the call got past an ACCEPT call answered 202: it returned a result
map, or it is blocked waiting for statuses. -/
def Ending.accepted : Ending → Bool
  | .returned _ => true
  | .awaiting => true
  | _ => false

/-- What a task's goroutine reads from the status channel: the number of
statuses consumed up to and including the first one for which `IsDone` holds,
and that status; `none` when no delivered status is done. -/
def awaitDone (isDone : TaskStatus → Bool) : List TaskStatus → Option (Nat × TaskStatus)
  | [] => none
  | status :: rest =>
    if isDone status then some (1, status)
    else match awaitDone isDone rest with
      | none => none
      | some r => some (r.1 + 1, r.2)

/-- The removal `a.removeTask(task.ID())` made by a goroutine of `launch` when
the task's status is done. -/
def Scheduler.dropTask (s : Scheduler) (agentId taskId : String) : Scheduler :=
  match s.getAgent agentId with
  | none => s
  | some a => s.writeAgent agentId (a.removeTask taskId)

/-- The state after the waiting goroutines of `launch`: the registry, the
result map, the number of statuses consumed, and whether some goroutine never
finishes. -/
structure Awaited where
  sched : Scheduler
  rets : SMap (Option String)
  consumed : Nat
  stuck : Bool

/-- The goroutines started by `launch` after an accepted ACCEPT call, taken in
the order of the batch. -/
def awaitLoop {σ : Type} (env : Env σ) : Scheduler → List Task → Awaited
  | s, [] => ⟨s, [], 0, false⟩
  | s, task :: rest =>
    match awaitDone (env.IsDone task) (env.statuses task.ID) with
    | none =>
      let r := awaitLoop env s rest
      ⟨r.sched, r.rets, r.consumed + (env.statuses task.ID).length, true⟩
    | some (n, status) =>
      let s1 := s.dropTask (task.agentId.getD "") task.ID
      let r := awaitLoop env s1 rest
      ⟨r.sched, r.rets.set task.ID (env.DetectError task status), r.consumed + n, r.stuck⟩

/-- Everything observable of a call of `launch` or `LaunchTasks`: the task
handles after the call, the store and the records written to it, the calls
sent, the number of statuses consumed, the registry, and how the call ended. -/
structure Outcome (σ : Type) where
  tasks : List Task
  db : σ
  writes : List (String × StoreTask)
  calls : List Call
  consumed : Nat
  sched : Scheduler
  ending : Ending

/-- `Scheduler.launch`. -/
def launch {σ : Type} (env : Env σ) (s : Scheduler) (db : σ) (offers : List Offer)
    (tasks : List Task) : Outcome σ :=
  let ports := gatherPorts offers
  let assigned := assignLoop offers ports 0 tasks
  let tasks1 := assigned.1
  match assigned.2 with
  | some stop => ⟨tasks1, db, [], [], 0, s, stop.ending⟩
  | none =>
    match tasks1[0]? with
    | none => ⟨tasks1, db, [], [], 0, s, .panicked⟩
    | some t0 =>
      match (SplitN2 t0.name)[1]? with
      | none => ⟨tasks1, db, [], [], 0, s, .panicked⟩
      | some appId =>
        let p := persistLoop env.store appId offers db tasks1
        match p.stop with
        | some stop => ⟨tasks1, p.db, p.writes, [], 0, s, stop.ending⟩
        | none =>
          let offerIds := offers.map (fun offer => offer.id)
          let call := Call.accept s.frameworkId offerIds tasks1
          match offers[0]? with
          | none => ⟨tasks1, p.db, p.writes, [], 0, s, .panicked⟩
          | some _ =>
            match env.Send call with
            | .error err =>
              ⟨tasks1, p.db, p.writes, [call], 0, s,
                .failed ("send launch call got error: " ++ err)⟩
            | .ok code =>
              if code ≠ StatusAccepted then
                ⟨tasks1, p.db, p.writes, [call], 0, s,
                  .failed ("launch call send but the status code not 202 got " ++ toString code)⟩
              else
                let w := awaitLoop env s tasks1
                ⟨tasks1, p.db, p.writes, [call], w.consumed, w.sched,
                  if w.stuck then .awaiting else .returned w.rets⟩

/-! ## `LaunchTasks` -/

/-- `Scheduler.applyFilters`; `polls` is the number of times the `default` case
of the `select` is taken before the timer fires. -/
def applyFilters {σ : Type} (env : Env σ) (s : Scheduler) (config : Option TaskConfig) :
    Nat → Except String (List Agent)
  | 0 => .error errResourceNotEnough
  | polls + 1 =>
    let filtered := env.ApplyFilters config s.getAgents
    if filtered.length > 0 then .ok filtered
    else applyFilters env s config polls

/-- The loop `for _, a := range candidates` of `LaunchTasks`, started with the
current value of the variable `offers`: the agent chosen, if any, and the value
of `offers` after the loop. -/
def selectAgent : List Agent → List Offer → Option Agent × List Offer
  | [], offers => (none, offers)
  | a :: rest, _ =>
    let offers := a.getOffers
    if offers.length > 0 then (some a, offers) else selectAgent rest offers

/-- How the filter-rank-select loop of `LaunchTasks` ends. -/
inductive Selection where
  | timedOut (err : String)
  | chosen (agent : Agent) (offers : List Offer)
  | polling
  deriving DecidableEq, Repr

/-- The loop `for { ... }` of `LaunchTasks`, from its `round`-th iteration on and
with at most `fuel` iterations. -/
def selectLoop {σ : Type} (env : Env σ) (s : Scheduler) (config : Option TaskConfig) :
    Nat → Nat → List Offer → Selection
  | 0, _, _ => .polling
  | fuel + 1, round, offers =>
    match applyFilters env s config (env.timer round) with
    | .error err => .timedOut err
    | .ok filtered =>
      let candidates := env.RankAndSort filtered
      match selectAgent candidates offers with
      | (some agent, offers1) => .chosen agent offers1
      | (none, offers1) => selectLoop env s config fuel (round + 1) offers1

/-- The call `agent.addTask(task)` on the agent pointed to by `agent`. -/
def Scheduler.attachTask (s : Scheduler) (agent : Agent) (task : Task) : Scheduler :=
  match s.getAgent agent.id with
  | none => s
  | some a => s.writeAgent agent.id (a.addTask task)

/-- The reserve step of `LaunchTasks`: the two loops that attach the tasks to
the chosen agent and remove the offers from the registry. -/
def Scheduler.reserve (s : Scheduler) (agent : Agent) (offers : List Offer)
    (tasks : List Task) : Scheduler :=
  let s1 := tasks.foldl (fun s task => s.attachTask agent task) s
  offers.foldl (fun s offer => (s.removeOffer offer).2) s1

/-- `Scheduler.LaunchTasks`, with at most `fuel` iterations of its loop. -/
def LaunchTasks {σ : Type} (env : Env σ) (fuel : Nat) (s : Scheduler) (db : σ)
    (tasks : List Task) : Outcome σ :=
  match tasks[0]? with
  | none => ⟨tasks, db, [], [], 0, s, .panicked⟩
  | some t0 =>
    match selectLoop env s t0.cfg fuel 0 [] with
    | .polling => ⟨tasks, db, [], [], 0, s, .polling⟩
    | .timedOut err => ⟨tasks, db, [], [], 0, s, .failed err⟩
    | .chosen agent offers =>
      let s1 := s.reserve agent offers tasks
      launch env s1 db offers tasks

/-! ## Predicates on registries -/

/-- The offer found under the id `offerId` on the agent registered under
`agentId`, if there is one. -/
def Scheduler.offerAt (s : Scheduler) (agentId offerId : String) : Option Offer :=
  match s.getAgent agentId with
  | none => none
  | some a => a.getOffer offerId

/-- Each offer is stored on the agent named by its agent id. -/
def OffersPlaced (s : Scheduler) : Prop :=
  ∀ e ∈ s.agents, ∀ f ∈ e.2.offers, f.2.agentId = e.1

/-- Agents are registered under their own id and offers are stored under their
own id, as `addAgent` and `Agent.addOffer` do. -/
def KeysMatch (s : Scheduler) : Prop :=
  ∀ e ∈ s.agents, e.2.id = e.1 ∧ ∀ f ∈ e.2.offers, f.2.id = f.1

/-- No offer id is in use on two agents. -/
def UniqueOfferIds (s : Scheduler) : Prop :=
  ∀ e1 ∈ s.agents, ∀ e2 ∈ s.agents, ∀ f1 ∈ e1.2.offers, ∀ f2 ∈ e2.2.offers,
    f1.1 = f2.1 → e1.1 = e2.1

/-- The placement invariant of the registry: keys match ids and each offer is
stored on the agent named by its agent id. -/
def WellPlaced (s : Scheduler) : Prop := KeysMatch s ∧ OffersPlaced s

/-- The registry operations of the offer path. -/
inductive RegistryOp where
  | addAgent (id hostname : String)
  | addOffer (offer : Offer)
  | removeOffer (offer : Offer)
  deriving DecidableEq, Repr

/-- The effect of one registry operation; `addAgent` registers a freshly
created agent. -/
def RegistryOp.apply (s : Scheduler) : RegistryOp → Scheduler
  | .addAgent id hostname => s.addAgent (newAgent id hostname)
  | .addOffer offer => s.addOffer offer
  | .removeOffer offer => (s.removeOffer offer).2

/-- The registry reached from the empty one by a sequence of operations. -/
def runOps (ops : List RegistryOp) : Scheduler :=
  ops.foldl RegistryOp.apply emptyRegistry

/-! ## Concrete collaborators and states used to evaluate the model -/

/-- A store holding a list of records: `GetTask` fails on an unknown task id,
`UpdateTask` replaces the record with the same id. -/
def listStore : Store (List StoreTask) where
  GetTask := fun db _ taskId =>
    match db.find? (fun r => decide (r.ID = taskId)) with
    | none => .error "task not found"
    | some r => .ok r
  UpdateTask := fun db _ task =>
    .ok (task :: db.filter (fun r => decide (r.ID ≠ task.ID)))

/-- An environment over `listStore` in which every agent passes the filters,
the ranking keeps the order, a task is done on a running status, and the
filter timer allows three polls; the answer to calls and the delivered
statuses are given. -/
def listEnv (send : Call → Except String Nat) (statuses : String → List TaskStatus) :
    Env (List StoreTask) where
  ApplyFilters := fun _ agents => agents
  RankAndSort := fun agents => agents
  Send := send
  store := listStore
  IsDone := fun _ status => decide (status.state = .TASK_RUNNING)
  DetectError := fun _ _ => none
  statuses := statuses
  timer := fun _ => 3

/-- A status of the given state for the given task on agent `a1`. -/
def statusOf (taskId : String) (state : TaskState) : TaskStatus :=
  { taskId := taskId, agentId := "a1", state := state, message := "", source := "",
    reason := "", healthy := none, uuid := none }

/-- Offer `o1` of agent `a1`, with three ports. -/
def offerO1 : Offer := ⟨"o1", "a1", "h1", [31000, 31001, 31002]⟩

/-- The registry after an OFFERS event carrying `offerO1`: the agent is added,
then the offer. -/
def oneOfferRegistry : Scheduler :=
  (emptyRegistry.addAgent (newAgent "a1" "h1")).addOffer offerO1

/-- A task handle named `0.app`. -/
def taskT1 : Task := NewTask (some ⟨"", "host", 0⟩) "t1" "0.app"

/-- The run of `LaunchTasks` on `taskT1` over `oneOfferRegistry`, the ACCEPT call
being answered 202 and a running status being delivered for the task. -/
def doneRun : Outcome (List StoreTask) :=
  LaunchTasks
    (listEnv (fun _ => .ok 202) (fun _ => [statusOf "t1" .TASK_STAGING, statusOf "t1" .TASK_RUNNING]))
    1 oneOfferRegistry [⟨"t1", "", "", 0⟩] [taskT1]

/-- A registry in which two agents each hold an offer with id `o1`, each offer
naming the agent it is stored on. -/
def twoAgentsSameOfferId : Scheduler :=
  { agents := [("a1", ⟨"a1", "h1", [("o1", ⟨"o1", "a1", "h1", []⟩)], []⟩),
               ("a2", ⟨"a2", "h2", [("o1", ⟨"o1", "a2", "h2", []⟩)], []⟩)],
    status := "", frameworkId := none }

/-- Offer `o1` of agent `a1` with a single port. -/
def onePortOffer : Offer := ⟨"o1", "a1", "h1", [31000]⟩

/-- Offer `o1` of agent `a1` whose port list names port 31000 twice. -/
def twinPortOffer : Offer := ⟨"o1", "a1", "h1", [31000, 31000]⟩

/-- A task handle named `1.app`, on the bridge network. -/
def taskT2 : Task := NewTask (some ⟨"", "bridge", 0⟩) "t2" "1.app"

/-- A task handle named `2.app`, on a user network with a configured address. -/
def taskT3 : Task := NewTask (some ⟨"10.0.0.3", "swan", 0⟩) "t3" "2.app"

/-- The registry after an OFFERS event carrying the offer: the agent is added,
then the offer. -/
def registryWith (o : Offer) : Scheduler :=
  (emptyRegistry.addAgent (newAgent o.agentId o.hostname)).addOffer o

/-- Persisted records of the tasks `t1`, `t2`, `t3` before any launch. -/
def storedTasks : List StoreTask := [⟨"t1", "", "", 0⟩, ⟨"t2", "", "", 0⟩, ⟨"t3", "", "", 0⟩]

/-- The environment in which ACCEPT is answered 202 and every task receives a
running status. -/
def runningEnv : Env (List StoreTask) :=
  listEnv (fun _ => .ok 202) (fun id => [statusOf id .TASK_RUNNING])

/-- Three tasks launched on an agent whose only offer has one port. -/
def shortPoolRun : Outcome (List StoreTask) :=
  LaunchTasks runningEnv 1 (registryWith onePortOffer) storedTasks [taskT1, taskT2, taskT3]

/-- Two tasks launched on an agent whose offer names the same port twice. -/
def twinPortRun : Outcome (List StoreTask) :=
  LaunchTasks runningEnv 1 (registryWith twinPortOffer) storedTasks [taskT1, taskT2]

/-- The registry left by the reserve step of `LaunchTasks` for three tasks on
the agent holding `offerO1`. -/
def reservedRegistry : Scheduler :=
  (registryWith offerO1).reserve (newAgent "a1" "h1") [offerO1] [taskT1, taskT2, taskT3]

/-- The call of `launch` made by `LaunchTasks` for the three tasks on the offer
`offerO1`, on the registry left by the reserve step. -/
def threeTaskLaunch : Outcome (List StoreTask) :=
  launch runningEnv reservedRegistry storedTasks [offerO1] [taskT1, taskT2, taskT3]

/-- The environment of `runningEnv` with a filter chain that no agent passes. -/
def noFitEnv : Env (List StoreTask) :=
  { runningEnv with ApplyFilters := fun _ _ => [] }

/-- The environment of `runningEnv` in which calls are answered with the given
status code. -/
def answerEnv (code : Nat) : Env (List StoreTask) :=
  { runningEnv with Send := fun _ => .ok code }

/-- The environment of `runningEnv` in which sending a call fails. -/
def brokenEnv : Env (List StoreTask) :=
  { runningEnv with Send := fun _ => .error "connection refused" }

/-- Agent `a0`, holding a task and no offer. -/
def busyAgent : Agent := ⟨"a0", "h0", [], [("t9", NewTask none "t9" "9.app")]⟩

/-- Agent `a1`, holding `offerO1`. -/
def offeringAgent : Agent := ⟨"a1", "h1", [("o1", offerO1)], []⟩

/-- A registry with `busyAgent` ranked before `offeringAgent`. -/
def twoCandidateRegistry : Scheduler :=
  { agents := [("a0", busyAgent), ("a1", offeringAgent)], status := "", frameworkId := none }

/-! ## Reconciliation -/

/-- Modelled from the spec: the persisted application, of which the reconciler
reads the id. -/
structure App where
  ID : String
  deriving DecidableEq, Repr

/-- Modelled from the spec: the store operations used by the reconciler
(`ListApps`, `ListTasks`); an `Except.error` carries the text of the returned
error. -/
structure Inventory where
  ListApps : Except String (List App)
  ListTasks : String → Except String (List StoreTask)

/-- `Scheduler.reconcileTasks`: the RECONCILE call built from the pairs of the
map, and the returned error. -/
def reconcileTasks (send : Call → Except String Nat) (s : Scheduler)
    (tasks : List (String × String)) : Call × Option String :=
  let call := Call.reconcile s.frameworkId tasks
  match send call with
  | .error err => (call, some err)
  | .ok code =>
    if code ≠ StatusAccepted then
      (call, some ("send reconcile call got " ++ toString code ++ " not 202"))
    else (call, none)

/-- The loop `for _, app := range apps` in the ticker goroutine of
`startReconcile`, with the current value of the outer variable `tasks`.  The
statement `tasks, err := s.db.ListTasks(app.ID)` declares a new variable
`tasks` in the loop body; the inner loop appends to that variable, and the
outer variable is left as it was. -/
def collectTasks (db : Inventory) : List App → List StoreTask → List StoreTask
  | [], tasks => tasks
  | app :: rest, tasks =>
    match db.ListTasks app.ID with
    | .error _ => collectTasks db rest tasks
    | .ok inner =>
      let _inner := inner.foldl (fun acc task => acc ++ [task]) inner
      collectTasks db rest tasks

/-- The loop `for _, task := range tasks` in the ticker goroutine of
`startReconcile`, with the current map `m` and counter `send`: the RECONCILE
calls sent. -/
def paceLoop (send : Call → Except String Nat) (s : Scheduler) (step total : Nat) :
    List StoreTask → List (String × String) → Nat → List Call
  | [], _, _ => []
  | task :: rest, m, sent =>
    let m1 := m ++ [(task.ID, task.AgentId)]
    if m1.length ≥ step ∨ m1.length + sent ≥ total then
      (reconcileTasks send s m1).1 :: paceLoop send s step total rest [] (sent + m1.length)
    else paceLoop send s step total rest m1 sent

/-- One tick of the ticker goroutine of `startReconcile`: the RECONCILE calls
sent. -/
def reconcileTick (send : Call → Except String Nat) (s : Scheduler) (db : Inventory)
    (step : Nat) : List Call :=
  match db.ListApps with
  | .error _ => []
  | .ok apps =>
    let tasks := collectTasks db apps []
    let total := tasks.length
    paceLoop send s step total tasks [] 0

/-- `Scheduler.reconcile`, the one-shot reconciliation: the RECONCILE calls
sent. -/
def reconcile (send : Call → Except String Nat) (s : Scheduler) (db : Inventory) :
    List Call :=
  match db.ListApps with
  | .error _ => []
  | .ok apps =>
    let m := apps.foldl (fun m app =>
      match db.ListTasks app.ID with
      | .error _ => m
      | .ok tasks => tasks.foldl (fun m task => m ++ [(task.ID, task.AgentId)]) m) []
    [(reconcileTasks send s m).1]

/-- The pairs carried by a RECONCILE call. -/
def Call.reconcilePairs : Call → List (String × String)
  | .reconcile _ tasks => tasks
  | _ => []

/-- A store with one application `app` holding one task `t1` on agent `a1`. -/
def oneTaskInventory : Inventory where
  ListApps := .ok [⟨"app"⟩]
  ListTasks := fun appId =>
    if appId = "app" then .ok [⟨"t1", "a1", "h1", 31000⟩] else .error "app not found"

/-! ## Event dispatch and acknowledgement -/

/-- Modelled from the spec: the kinds of `mesosproto.Event`; `UNKNOWN` stands
for a kind without a handler. -/
inductive EventType where
  | UNKNOWN | SUBSCRIBED | OFFERS | RESCIND | UPDATE | HEARTBEAT | ERROR | FAILURE | MESSAGE
  deriving DecidableEq, Repr

/-- Modelled from the spec: an event of the master's stream with the payload of
its kind; an UPDATE event carries its status. -/
inductive Event where
  | unknown
  | subscribed (frameworkId : String)
  | offers (offers : List Offer)
  | rescind (offerId : String)
  | update (status : TaskStatus)
  | heartbeat
  | error (message : String)
  | failure (agentId : String)
  | message
  deriving DecidableEq, Repr

/-- The getter `Event.GetType`. -/
def Event.GetType : Event → EventType
  | .unknown => .UNKNOWN
  | .subscribed _ => .SUBSCRIBED
  | .offers _ => .OFFERS
  | .rescind _ => .RESCIND
  | .update _ => .UPDATE
  | .heartbeat => .HEARTBEAT
  | .error _ => .ERROR
  | .failure _ => .FAILURE
  | .message => .MESSAGE

/-- The keys of the table `s.handlers` as `Scheduler.init` fills it. -/
def initHandlers : List EventType :=
  [.SUBSCRIBED, .OFFERS, .RESCIND, .UPDATE, .HEARTBEAT, .ERROR, .FAILURE, .MESSAGE]

/-- The queues written by `handleEvent` and what it starts: the update queue
`s.events`, the offers queue `s.offers`, the failed-tasks queue, the statuses
handed to the acknowledging goroutine, the statuses sent to task handles, and
the events handed to a handler goroutine. -/
structure Dispatch where
  events : List Event
  offers : List Event
  failedTasks : List Task
  acks : List TaskStatus
  sent : List (Task × TaskStatus)
  spawned : List Event
  deriving DecidableEq, Repr

/-- `Scheduler.handleEvent`, for a handler table with the given keys. -/
def handleEvent (handlers : List EventType) (s : Scheduler) (q : Dispatch) (ev : Event) :
    Dispatch :=
  let typ := ev.GetType
  if typ ∉ handlers then q
  else
    match ev with
    | .update status =>
      let taskId := status.taskId
      let agentId := status.agentId
      let state := status.state
      let q1 := { q with acks := q.acks ++ [status] }
      let q2 :=
        if state = .TASK_FAILED then
          match s.getAgent agentId with
          | none => q1
          | some a =>
            match a.getTask taskId with
            | none => q1
            | some task => { q1 with failedTasks := q1.failedTasks ++ [task] }
        else q1
      let q3 :=
        match s.getAgent agentId with
        | none => q2
        | some a =>
          match a.getTask taskId with
          | none => q2
          | some task => { q2 with sent := q2.sent ++ [(task, status)] }
      { q3 with events := q3.events ++ [ev] }
    | .offers _ => { q with offers := q.offers ++ [ev] }
    | _ => { q with spawned := q.spawned ++ [ev] }

/-- `Scheduler.AckUpdateEvent`: the calls sent and the returned error. -/
def AckUpdateEvent (send : Call → Except String Nat) (s : Scheduler) (status : TaskStatus) :
    List Call × Option String :=
  match status.uuid with
  | none => ([], none)
  | some uuid =>
    let call := Call.acknowledge s.frameworkId status.agentId status.taskId uuid
    match send call with
    | .error err => ([call], some err)
    | .ok code =>
      if code ≠ StatusAccepted then
        ([call], some ("send ack got " ++ toString code ++ " not 202"))
      else ([call], none)

/-- The registry in which agent `a1` holds the handle of `taskT1`. -/
def launchedRegistry : Scheduler :=
  { agents := [("a1", ⟨"a1", "h1", [], [("t1", taskT1)]⟩)], status := "connected",
    frameworkId := some "fw" }

/-- A queue state with nothing queued. -/
def noDispatch : Dispatch := ⟨[], [], [], [], [], []⟩

/-! ## Initialisation, connection and reconnection -/

/-- The value of a 64-bit signed integer expression: `x` reduced to the range
of `int64`. -/
def wrap64 (x : Int) : Int := (x + 2 ^ 63) % 2 ^ 64 - 2 ^ 63

/-- Modelled from the spec: the reply of the master's state endpoint, of which
`init` reads the leader and the cluster name. -/
structure MesosState where
  Leader : String
  Cluster : String
  deriving DecidableEq, Repr

/-- `Scheduler.init`.  The inputs are the result of `MesosState`, the pair
returned by `GetFrameworkId` (id, write time in milliseconds), the value of
`time.Now().Unix()` and the constant `DefaultFrameworkFailoverTimeout`; the
leader, cluster name and handler table it stores are not fields of the
model. -/
def Scheduler.init (s : Scheduler) (state : Except String MesosState)
    (persisted : String × Int) (now DefaultFrameworkFailoverTimeout : Int) :
    Except String Scheduler :=
  match state with
  | .error err => .error err
  | .ok state =>
    if state.Leader = "" then .error "no mesos leader found."
    else
      let id := persisted.1
      let mtime := persisted.2
      if id ≠ "" then
        if wrap64 (now - Int.tdiv mtime 1000) ≥ DefaultFrameworkFailoverTimeout then .ok s
        else .ok { s with frameworkId := some id }
      else .ok s

/-- `NewScheduler`: the freshly allocated scheduler, whose framework descriptor
has no id, passed through `init`. -/
def NewScheduler (state : Except String MesosState) (persisted : String × Int)
    (now DefaultFrameworkFailoverTimeout : Int) : Except String Scheduler :=
  emptyRegistry.init state persisted now DefaultFrameworkFailoverTimeout

/-- The value `statusConnecting`. -/
def statusConnecting : String := "connecting"

/-- The value `statusConnected`. -/
def statusConnected : String := "connected"

/-- The SUBSCRIBE call composed by `connect`. -/
def Scheduler.subscribeCall (s : Scheduler) : Call := Call.subscribe s.frameworkId

/-- `Scheduler.connect`: the error returned, or the scheduler after the
call.  The error texts, which in the source also name the leader and the
response body, are abbreviated. -/
def Scheduler.connect (send : Call → Except String Nat) (s : Scheduler) :
    Except String Scheduler :=
  match send s.subscribeCall with
  | .error err => .error ("subscribe to mesos leader error " ++ err)
  | .ok code =>
    if code ≠ 200 then .error ("subscribe with unexpected response " ++ toString code)
    else .ok { s with status := statusConnected }

/-- The loop `for { ... }` of `reconnect`, from its `attempt`-th iteration on
and with at most `fuel` iterations; `send attempt` answers the call of that
iteration. -/
def reconnectLoop (send : Nat → Call → Except String Nat) (s : Scheduler) :
    Nat → Nat → Option Scheduler
  | 0, _ => none
  | fuel + 1, attempt =>
    match s.connect (send attempt) with
    | .ok s1 => some s1
    | .error _ => reconnectLoop send s fuel (attempt + 1)

/-- `Scheduler.reconnect`, with at most `fuel` iterations of its loop; `none`
when the loop is still retrying.  The call `s.http.Reset()`, which empties the
stream id kept by the HTTP client, acts outside the modelled state. -/
def Scheduler.reconnect (send : Nat → Call → Except String Nat) (s : Scheduler)
    (fuel : Nat) : Option Scheduler :=
  reconnectLoop send { s with status := statusConnecting } fuel 0

/-! ## `KillTask` -/

/-- How a call of `KillTask` ends: with an error, with nil, or blocked for ever
on the status channel. -/
inductive KillEnding where
  | failed (err : String)
  | returned
  | waiting
  deriving DecidableEq, Repr

/-- Everything observable of a call of `KillTask`: the registry, the calls
sent, the number of statuses consumed from the handle's channel, and how the
call ended. -/
structure KillOutcome where
  sched : Scheduler
  calls : List Call
  consumed : Nat
  ending : KillEnding
  deriving DecidableEq, Repr

/-- `Scheduler.KillTask`.  `isKilled` is the method `Task.IsKilled` of the
handle, `statuses` the statuses delivered on the handle's status channel, which
is not closed while the call waits. -/
def KillTask (send : Call → Except String Nat) (isKilled : TaskStatus → Bool)
    (statuses : List TaskStatus) (s : Scheduler) (taskId agentId : String) (sync : Bool) :
    KillOutcome :=
  let t := NewTask none taskId taskId
  let s1 :=
    if sync then
      match s.getAgent agentId with
      | none => s
      | some a => s.writeAgent agentId (a.addTask t)
    else s
  let call := Call.kill s.frameworkId taskId agentId
  match send call with
  | .error err => ⟨s1, [call], 0, .failed err⟩
  | .ok code =>
    if code ≠ StatusAccepted then
      ⟨s1, [call], 0,
        .failed ("kill call send but the status code not 202 got " ++ toString code)⟩
    else if sync then
      match awaitDone isKilled statuses with
      | none => ⟨s1, [call], statuses.length, .waiting⟩
      | some r => ⟨s1.dropTask agentId taskId, [call], r.1, .returned⟩
    else ⟨s1, [call], 0, .returned⟩

/-- The classification of the spec for killed statuses: the state
TASK_KILLED. -/
def killedState (status : TaskStatus) : Bool := decide (status.state = .TASK_KILLED)

/-! ## The launch semaphore -/

/-- Where a `LaunchTasks` invocation stands: before `s.lock()` has returned, in
the filter-rank-select loop, in the reserve step, in `launch` up to the answer
to the ACCEPT call, waiting for task statuses, or past the deferred
`s.unlock()`. -/
inductive Stage where
  | waiting | selecting | reserving | sending | awaiting | returned
  deriving DecidableEq, Repr

/-- Whether an invocation at this stage is between `s.lock()` and
`s.unlock()`. -/
def Stage.holding : Stage → Bool
  | .selecting | .reserving | .sending | .awaiting => true
  | _ => false

/-- The capacity of the channel `s.sem`, as `NewScheduler` makes it. -/
def semCapacity : Nat := 1

/-- The concurrent `LaunchTasks` invocations on one scheduler: the number of
elements buffered in the channel `s.sem` and the stage of each invocation. -/
structure Launches where
  sem : Nat
  stages : List Stage
  deriving DecidableEq, Repr

/-- The deferred `s.unlock()` of invocation `i`, the receive `<-s.sem`: it
takes an element off the channel and the invocation returns; with an empty
channel the receive blocks. -/
def Launches.unlock (l : Launches) (i : Nat) : Launches :=
  if l.sem > 0 then ⟨l.sem - 1, l.stages.set i .returned⟩ else l

/-- One step of invocation `i`; `branch` tells which way the code goes where it
branches.  A waiting invocation performs `s.lock()`, the send `s.sem <-
struct{}{}`, which blocks while the channel is full; a selecting invocation
goes on to the reserve step or returns on the filter timeout; a reserving
invocation goes on to `launch`; a sending invocation goes on to wait for
statuses or returns the error of `launch`; an awaiting invocation returns. -/
def Launches.step (l : Launches) (i : Nat) (branch : Bool) : Launches :=
  match l.stages[i]? with
  | none => l
  | some .waiting =>
    if l.sem < semCapacity then ⟨l.sem + 1, l.stages.set i .selecting⟩ else l
  | some .selecting =>
    if branch then ⟨l.sem, l.stages.set i .reserving⟩ else l.unlock i
  | some .reserving => ⟨l.sem, l.stages.set i .sending⟩
  | some .sending =>
    if branch then ⟨l.sem, l.stages.set i .awaiting⟩ else l.unlock i
  | some .awaiting => l.unlock i
  | some .returned => l

/-- The state reached by `n` invocations, all started, under an interleaving:
the list of the invocation taking each step, with the branch it takes. -/
def runLaunches (n : Nat) (schedule : List (Nat × Bool)) : Launches :=
  schedule.foldl (fun l e => l.step e.1 e.2) ⟨0, List.replicate n .waiting⟩

/-- The semaphore invariant: the channel is empty and no invocation is between
lock and unlock, or it holds one element and exactly one invocation is. -/
def Exclusive (l : Launches) : Prop :=
  (l.sem = 0 ∧ ∀ (j : Nat) (st : Stage), l.stages[j]? = some st → st.holding = false) ∨
  (l.sem = 1 ∧ ∃ (i : Nat) (st : Stage), l.stages[i]? = some st ∧ st.holding = true ∧
    ∀ (j : Nat) (st1 : Stage), j ≠ i → l.stages[j]? = some st1 → st1.holding = false)

/-- The handle `KillTask` builds for the task `0.app`: no configuration. -/
def killHandle : Task := NewTask none "0.app" "0.app"

/-- The registry while `KillTask("0.app", "a1", sync)` waits on the registry
holding `offerO1`, a failed status having been delivered to its handle: agent
`a1` holds the offer and the handle. -/
def killWaitRegistry : Scheduler :=
  (KillTask (fun _ => .ok 202) killedState [statusOf "0.app" .TASK_FAILED] oneOfferRegistry
    "0.app" "a1" true).sched

/-- The relaunch of the kill handle by `handleFailedTasks`. -/
def killHandleRun : Outcome (List StoreTask) :=
  LaunchTasks runningEnv 1 killWaitRegistry storedTasks [killHandle]

/-! # Properties -/

/-! ## Lemmas on string-keyed maps -/

namespace SMap

variable {V : Type}

theorem get_set (m : SMap V) (k k1 : String) (v : V) :
    get (set m k v) k1 = if k = k1 then some v else get m k1 := by
  induction m with
  | nil => simp [set, get]
  | cons e m ih =>
    obtain ⟨k2, v2⟩ := e
    by_cases h : k2 = k
    · subst h
      by_cases h1 : k2 = k1 <;> simp [set, get, h1]
    · by_cases h1 : k = k1
      · subst h1
        simp [set, get, h, ih]
      · simp [set, get, h, ih, h1]

theorem get_del (m : SMap V) (k k1 : String) :
    get (del m k) k1 = if k = k1 then none else get m k1 := by
  induction m with
  | nil => simp [del, get]
  | cons e m ih =>
    obtain ⟨k2, v2⟩ := e
    by_cases h : k2 = k
    · subst h
      by_cases h1 : k2 = k1
      · subst h1
        simpa [del, get] using ih
      · simp [del, get, h1, ih]
    · by_cases h1 : k = k1
      · subst h1
        simp [del, get, h, ih]
      · simp [del, get, h, ih, h1]

theorem mem_of_get {m : SMap V} {k : String} {v : V} (h : get m k = some v) :
    (k, v) ∈ m := by
  induction m with
  | nil => simp [get] at h
  | cons e m ih =>
    obtain ⟨k2, v2⟩ := e
    by_cases h1 : k2 = k
    · simp [get, h1] at h
      simp [h1, h]
    · simp [get, h1] at h
      exact List.mem_cons_of_mem _ (ih h)

theorem get_isSome_of_mem {m : SMap V} {k : String} {v : V} (h : (k, v) ∈ m) :
    (get m k).isSome = true := by
  induction m with
  | nil => simp at h
  | cons e m ih =>
    obtain ⟨k2, v2⟩ := e
    by_cases h1 : k2 = k
    · simp [get, h1]
    · simp only [List.mem_cons, Prod.mk.injEq] at h
      rcases h with h | h
      · exact absurd h.1.symm h1
      · simp [get, h1, ih h]

theorem mem_set {m : SMap V} {k : String} {v : V} {e : String × V}
    (h : e ∈ set m k v) : e ∈ m ∨ e = (k, v) := by
  induction m with
  | nil => simp [set] at h; exact Or.inr h
  | cons e2 m ih =>
    obtain ⟨k2, v2⟩ := e2
    by_cases h1 : k2 = k
    · simp only [set, h1, if_true, List.mem_cons] at h
      rcases h with h | h
      · exact Or.inr h
      · exact Or.inl (List.mem_cons_of_mem _ h)
    · simp only [set, h1, if_false, List.mem_cons] at h
      rcases h with h | h
      · exact Or.inl (h ▸ List.mem_cons_self _ _)
      · rcases ih h with h2 | h2
        · exact Or.inl (List.mem_cons_of_mem _ h2)
        · exact Or.inr h2

theorem mem_del {m : SMap V} {k : String} {e : String × V} (h : e ∈ del m k) :
    e ∈ m ∧ e.1 ≠ k := by
  induction m with
  | nil => simp [del] at h
  | cons e2 m ih =>
    obtain ⟨k2, v2⟩ := e2
    by_cases h1 : k2 = k
    · simp only [del, h1, if_true] at h
      exact ⟨List.mem_cons_of_mem _ (ih h).1, (ih h).2⟩
    · simp only [del, h1, if_false, List.mem_cons] at h
      rcases h with h | h
      · subst h
        exact ⟨List.mem_cons_self _ _, h1⟩
      · exact ⟨List.mem_cons_of_mem _ (ih h).1, (ih h).2⟩

theorem eq_nil_of_get_none {m : SMap V} (h : ∀ k, get m k = none) : m = [] := by
  cases m with
  | nil => rfl
  | cons e m =>
    have := h e.1
    simp [get] at this

end SMap

/-! ## Lemmas on the registry -/

theorem getAgent_writeAgent (s : Scheduler) (k k1 : String) (a : Agent) :
    (s.writeAgent k a).getAgent k1 = if k = k1 then some a else s.getAgent k1 := by
  simp [Scheduler.writeAgent, Scheduler.getAgent, SMap.get_set]

theorem getAgent_removeAgent (s : Scheduler) (k k1 : String) :
    (s.removeAgent k).getAgent k1 = if k = k1 then none else s.getAgent k1 := by
  simp [Scheduler.removeAgent, Scheduler.getAgent, SMap.get_del]

theorem getAgent_addAgent (s : Scheduler) (a : Agent) (k1 : String) :
    (s.addAgent a).getAgent k1 = if a.id = k1 then some a else s.getAgent k1 := by
  simp [Scheduler.addAgent, Scheduler.getAgent, SMap.get_set]

theorem empty_iff (a : Agent) : a.empty = true ↔ a.offers = [] ∧ a.tasks = [] := by
  simp [Agent.empty, List.length_eq_zero]

theorem mem_agents_of_getAgent {s : Scheduler} {k : String} {a : Agent}
    (h : s.getAgent k = some a) : (k, a) ∈ s.agents :=
  SMap.mem_of_get h

/-- The agent stored under the offer's agent id after `Scheduler.removeOffer`,
when the agent was registered: it is the agent without the offer id, unless
that agent is empty, in which case nothing is stored there. -/
theorem getAgent_removeOffer (s : Scheduler) (O : Offer) (a : Agent)
    (ha : s.getAgent O.agentId = some a) (k : String) :
    (s.removeOffer O).2.getAgent k =
      if O.agentId = k then
        (if (a.removeOffer O.id).2.empty then none else some (a.removeOffer O.id).2)
      else s.getAgent k := by
  unfold Scheduler.removeOffer
  simp only [ha]
  by_cases he : (a.removeOffer O.id).2.empty = true
  · simp only [he, if_true, getAgent_removeAgent, getAgent_writeAgent]
    by_cases hk : O.agentId = k <;> simp [hk]
  · simp only [he]
    by_cases hk : O.agentId = k <;> simp [hk, getAgent_writeAgent]

theorem getAgent_removeOffer_none (s : Scheduler) (O : Offer)
    (ha : s.getAgent O.agentId = none) : s.removeOffer O = (false, s) := by
  simp [Scheduler.removeOffer, ha]

theorem removeOffer_offers_get (a : Agent) (i j : String) :
    (a.removeOffer i).2.offers.get j = if i = j then none else a.offers.get j := by
  unfold Agent.removeOffer
  cases h : a.offers.get i with
  | none =>
    by_cases hij : i = j
    · subst hij; simp [h]
    · simp [hij]
  | some o => simp [SMap.get_del]

theorem removeOffer_fields (a : Agent) (i : String) :
    (a.removeOffer i).2.tasks = a.tasks ∧ (a.removeOffer i).2.id = a.id ∧
      (a.removeOffer i).2.hostname = a.hostname := by
  unfold Agent.removeOffer
  cases a.offers.get i <;> simp

theorem removeOffer_found (a : Agent) (i : String) :
    (a.removeOffer i).1 = (a.offers.get i).isSome := by
  unfold Agent.removeOffer
  cases a.offers.get i <;> simp

theorem removeOffer_flag (s : Scheduler) (O : Offer) :
    (s.removeOffer O).1 = (s.offerAt O.agentId O.id).isSome := by
  unfold Scheduler.removeOffer Scheduler.offerAt
  cases h : s.getAgent O.agentId with
  | none => simp
  | some a =>
    simp only [Agent.getOffer]
    split <;> exact removeOffer_found a O.id

theorem offerAt_some {s : Scheduler} {k i : String} {o : Offer}
    (h : s.offerAt k i = some o) :
    ∃ a, s.getAgent k = some a ∧ a.offers.get i = some o ∧ (k, a) ∈ s.agents ∧
      (i, o) ∈ a.offers := by
  unfold Scheduler.offerAt at h
  cases ha : s.getAgent k with
  | none => simp [ha] at h
  | some a =>
    simp only [ha, Agent.getOffer] at h
    exact ⟨a, rfl, h, SMap.mem_of_get ha, SMap.mem_of_get h⟩

/-! ## C2: `Scheduler.removeOffer` -/

/-- C2, as stated, fails: in a registry where every offer is stored on the agent
named by its agent id, but two agents hold offers with the same id `o1` (a
registry reached by two `addAgent` and two `addOffer` calls), removing the
offer of `a1` leaves an offer with id `o1` on `a2`. -/
theorem removeOffer_same_id_elsewhere :
    twoAgentsSameOfferId
      = runOps [.addAgent "a1" "h1", .addAgent "a2" "h2", .addOffer ⟨"o1", "a1", "h1", []⟩,
          .addOffer ⟨"o1", "a2", "h2", []⟩] ∧
    OffersPlaced twoAgentsSameOfferId ∧
    (∃ k, twoAgentsSameOfferId.offerAt k "o1" = some ⟨"o1", "a1", "h1", []⟩) ∧
    ¬ (∀ k, (twoAgentsSameOfferId.removeOffer ⟨"o1", "a1", "h1", []⟩).2.offerAt k "o1"
        = none) := by
  refine ⟨by decide, by unfold OffersPlaced; decide, ⟨"a1", by decide⟩, ?_⟩
  intro h
  exact absurd (h "a2") (by decide)

/-- C2 (amended): in a registry where each offer is stored on the agent named by
its agent id and no offer id is in use on two agents, for an offer `O` held in
it: after `Scheduler.removeOffer O` no agent holds an offer with the id of `O`;
the call returned true (and `O` was held); the agent of `O`, if still
registered, is not empty; every other agent is unchanged; every offer with
another id is unchanged; and the agent of `O`, if still registered, keeps its
tasks, id and hostname. -/
theorem removeOffer_clears_offer (s : Scheduler) (O : Offer)
    (hp : OffersPlaced s) (hu : UniqueOfferIds s)
    (hO : ∃ k, s.offerAt k O.id = some O) :
    (∀ k, (s.removeOffer O).2.offerAt k O.id = none) ∧
    ((s.removeOffer O).1 = true ↔ ∃ k, s.offerAt k O.id = some O) ∧
    (∀ a, (s.removeOffer O).2.getAgent O.agentId = some a → a.empty = false) ∧
    (∀ k, k ≠ O.agentId → (s.removeOffer O).2.getAgent k = s.getAgent k) ∧
    (∀ k i, i ≠ O.id → (s.removeOffer O).2.offerAt k i = s.offerAt k i) ∧
    (∀ a, (s.removeOffer O).2.getAgent O.agentId = some a →
      ∃ a0, s.getAgent O.agentId = some a0 ∧ a.tasks = a0.tasks ∧ a.id = a0.id ∧
        a.hostname = a0.hostname) := by
  obtain ⟨k0, hk0⟩ := hO
  obtain ⟨a0, ha0, hget, hmemA, hmemO⟩ := offerAt_some hk0
  have hk : O.agentId = k0 := hp _ hmemA _ hmemO
  subst hk
  have hstep := getAgent_removeOffer s O a0 ha0
  refine ⟨?_, ?_, ?_, ?_, ?_, ?_⟩
  · intro k
    unfold Scheduler.offerAt
    rw [hstep k]
    by_cases hk : O.agentId = k
    · simp only [hk, if_true]
      by_cases he : (a0.removeOffer O.id).2.empty = true
      · simp [he]
      · simp [he, Agent.getOffer, removeOffer_offers_get]
    · simp only [hk, if_false]
      cases hb : s.getAgent k with
      | none => rfl
      | some b =>
        simp only [Agent.getOffer]
        cases hbo : b.offers.get O.id with
        | none => rfl
        | some o1 =>
          exact absurd (hu _ hmemA _ (SMap.mem_of_get hb) _ hmemO _ (SMap.mem_of_get hbo) rfl) hk
  · constructor
    · intro _
      exact ⟨O.agentId, hk0⟩
    · intro _
      rw [removeOffer_flag, hk0]
      rfl
  · intro a ha
    rw [hstep O.agentId] at ha
    cases he : (a0.removeOffer O.id).2.empty with
    | true => simp [he] at ha
    | false =>
      simp [he] at ha
      subst ha
      exact he
  · intro k hk
    rw [hstep k]
    simp [Ne.symm hk]
  · intro k i hi
    unfold Scheduler.offerAt
    rw [hstep k]
    by_cases hk : O.agentId = k
    · subst hk
      simp only [if_true, ha0, Agent.getOffer]
      have h1 := removeOffer_offers_get a0 O.id i
      simp only [Ne.symm hi, if_false] at h1
      cases he : (a0.removeOffer O.id).2.empty with
      | true =>
        have hnil := ((empty_iff _).1 he).1
        rw [hnil] at h1
        simp only [SMap.get] at h1
        simp [← h1]
      | false => simp [h1]
    · simp [hk]
  · intro a ha
    rw [hstep O.agentId] at ha
    cases he : (a0.removeOffer O.id).2.empty with
    | true => simp [he] at ha
    | false =>
      simp [he] at ha
      subst ha
      exact ⟨a0, ha0, removeOffer_fields a0 O.id⟩

/-- C2 at the registry holding the single offer `offerO1`: after its removal no
agent holds an offer with id `o1`. -/
theorem removeOffer_clears_offer_witness :
    OffersPlaced oneOfferRegistry ∧ UniqueOfferIds oneOfferRegistry ∧
    (∃ k, oneOfferRegistry.offerAt k offerO1.id = some offerO1) ∧
    (∀ k, (oneOfferRegistry.removeOffer offerO1).2.offerAt k offerO1.id = none) :=
  ⟨by unfold OffersPlaced; decide, by unfold UniqueOfferIds; decide, ⟨"a1", by decide⟩,
    (removeOffer_clears_offer oneOfferRegistry offerO1 (by unfold OffersPlaced; decide)
      (by unfold UniqueOfferIds; decide) ⟨"a1", by decide⟩).1⟩

/-! ## C1: agents left without offers and tasks -/

/-- C1 evaluated on the code: after the offer `o1` of agent `a1` arrived and
`LaunchTasks` of one task on it returned with the task running, agent `a1` is
still registered and holds no offer and no task. -/
theorem launch_done_leaves_empty_agent :
    doneRun.ending = .returned [("t1", none)] ∧
    ∃ a, doneRun.sched.getAgent "a1" = some a ∧ a.offers.length + a.tasks.length = 0 :=
  ⟨by decide, ⟨"a1", "h1", [], []⟩, by decide, by decide⟩

/-! ## C3: offer placement -/

theorem wellPlaced_empty : WellPlaced emptyRegistry := by
  constructor <;> intro e he <;> simp [emptyRegistry] at he

theorem wellPlaced_writeAgent {s : Scheduler} (h : WellPlaced s) (k : String) (a : Agent)
    (hid : a.id = k) (hoff : ∀ f ∈ a.offers, f.2.id = f.1 ∧ f.2.agentId = k) :
    WellPlaced (s.writeAgent k a) := by
  constructor
  · intro e he
    rcases SMap.mem_set he with h1 | h1
    · exact h.1 e h1
    · subst h1
      exact ⟨hid, fun f hf => (hoff f hf).1⟩
  · intro e he
    rcases SMap.mem_set he with h1 | h1
    · exact h.2 e h1
    · subst h1
      exact fun f hf => (hoff f hf).2

theorem wellPlaced_removeAgent {s : Scheduler} (h : WellPlaced s) (k : String) :
    WellPlaced (s.removeAgent k) :=
  ⟨fun e he => h.1 e (SMap.mem_del he).1, fun e he => h.2 e (SMap.mem_del he).1⟩

theorem wellPlaced_agent {s : Scheduler} (h : WellPlaced s) {k : String} {a : Agent}
    (ha : s.getAgent k = some a) :
    a.id = k ∧ ∀ f ∈ a.offers, f.2.id = f.1 ∧ f.2.agentId = k :=
  ⟨(h.1 _ (SMap.mem_of_get ha)).1, fun f hf =>
    ⟨(h.1 _ (SMap.mem_of_get ha)).2 f hf, h.2 _ (SMap.mem_of_get ha) f hf⟩⟩

theorem wellPlaced_addAgent {s : Scheduler} (h : WellPlaced s) (id hostname : String) :
    WellPlaced (s.addAgent (newAgent id hostname)) := by
  have := wellPlaced_writeAgent h id (newAgent id hostname) rfl
    (by intro f hf; simp [newAgent] at hf)
  exact this

theorem wellPlaced_addOffer {s : Scheduler} (h : WellPlaced s) (o : Offer) :
    WellPlaced (s.addOffer o) := by
  unfold Scheduler.addOffer
  cases ha : s.getAgent o.agentId with
  | none => exact h
  | some a =>
    have hw := wellPlaced_agent h ha
    refine wellPlaced_writeAgent h _ _ hw.1 ?_
    intro f hf
    rcases SMap.mem_set hf with h1 | h1
    · exact hw.2 f h1
    · subst h1
      exact ⟨rfl, rfl⟩

theorem removeOffer_offers_subset (a : Agent) (i : String) :
    ∀ f ∈ (a.removeOffer i).2.offers, f ∈ a.offers := by
  intro f hf
  unfold Agent.removeOffer at hf
  cases h : a.offers.get i with
  | none => simpa [h] using hf
  | some o =>
    simp only [h] at hf
    exact (SMap.mem_del hf).1

theorem wellPlaced_removeOffer {s : Scheduler} (h : WellPlaced s) (o : Offer) :
    WellPlaced (s.removeOffer o).2 := by
  unfold Scheduler.removeOffer
  cases ha : s.getAgent o.agentId with
  | none => exact h
  | some a =>
    have hw := wellPlaced_agent h ha
    have h1 : WellPlaced (s.writeAgent o.agentId (a.removeOffer o.id).2) :=
      wellPlaced_writeAgent h _ _ ((removeOffer_fields a o.id).2.1.trans hw.1)
        (fun f hf => hw.2 f (removeOffer_offers_subset a o.id f hf))
    simp only
    split
    · exact wellPlaced_removeAgent h1 _
    · exact h1

theorem wellPlaced_apply {s : Scheduler} (h : WellPlaced s) (op : RegistryOp) :
    WellPlaced (op.apply s) := by
  cases op with
  | addAgent id hostname => exact wellPlaced_addAgent h id hostname
  | addOffer o => exact wellPlaced_addOffer h o
  | removeOffer o => exact wellPlaced_removeOffer h o

theorem wellPlaced_foldl (ops : List RegistryOp) :
    ∀ s, WellPlaced s → WellPlaced (ops.foldl RegistryOp.apply s) := by
  induction ops with
  | nil => intro s h; exact h
  | cons op ops ih => intro s h; exact ih _ (wellPlaced_apply h op)

theorem wellPlaced_runOps (ops : List RegistryOp) : WellPlaced (runOps ops) :=
  wellPlaced_foldl ops _ wellPlaced_empty

/-- C3: in every registry reached from the empty one through `addAgent` of a
fresh agent, `Scheduler.addOffer` and `Scheduler.removeOffer`, an offer stored on
an agent is stored under its own id on the agent whose key and id are the
offer's agent id, so no offer is stored on two agents; and `Scheduler.addOffer`
changes nothing when the offer's agent is not registered, changes no agent
other than the offer's, and stores the offer on the offer's agent when that
agent is registered. -/
theorem offer_placement (ops : List RegistryOp) :
    (∀ k a i o, (runOps ops).getAgent k = some a → a.getOffer i = some o →
      a.id = o.agentId ∧ k = o.agentId ∧ i = o.id) ∧
    (∀ k1 k2 i1 i2 o, (runOps ops).offerAt k1 i1 = some o →
      (runOps ops).offerAt k2 i2 = some o → k1 = k2 ∧ i1 = i2) ∧
    (∀ o, (runOps ops).getAgent o.agentId = none → (runOps ops).addOffer o = runOps ops) ∧
    (∀ o k, k ≠ o.agentId →
      ((runOps ops).addOffer o).getAgent k = (runOps ops).getAgent k) ∧
    (∀ o, (runOps ops).getAgent o.agentId ≠ none →
      ((runOps ops).addOffer o).offerAt o.agentId o.id = some o) := by
  have hw := wellPlaced_runOps ops
  have key : ∀ k a i o, (runOps ops).getAgent k = some a → a.getOffer i = some o →
      a.id = o.agentId ∧ k = o.agentId ∧ i = o.id := by
    intro k a i o ha ho
    have h1 := wellPlaced_agent hw ha
    have h2 := h1.2 _ (SMap.mem_of_get ho)
    exact ⟨h1.1.trans h2.2.symm, h2.2.symm, h2.1.symm⟩
  refine ⟨key, ?_, ?_, ?_, ?_⟩
  · intro k1 k2 i1 i2 o h1 h2
    obtain ⟨a1, ha1, ho1, _, _⟩ := offerAt_some h1
    obtain ⟨a2, ha2, ho2, _, _⟩ := offerAt_some h2
    have e1 := key k1 a1 i1 o ha1 ho1
    have e2 := key k2 a2 i2 o ha2 ho2
    exact ⟨e1.2.1.trans e2.2.1.symm, e1.2.2.trans e2.2.2.symm⟩
  · intro o h
    simp [Scheduler.addOffer, h]
  · intro o k hk
    unfold Scheduler.addOffer
    cases ha : (runOps ops).getAgent o.agentId with
    | none => rfl
    | some a => simp [getAgent_writeAgent, Ne.symm hk]
  · intro o h
    unfold Scheduler.addOffer Scheduler.offerAt
    cases ha : (runOps ops).getAgent o.agentId with
    | none => exact absurd ha h
    | some a => simp [getAgent_writeAgent, Agent.getOffer, Agent.addOffer, SMap.get_set]

/-- C3 at the registry reached by adding agents `a1`, `a2` and the offer `o1`
of `a1`: the offer sits on `a1` only. -/
theorem offer_placement_witness :
    (runOps [.addAgent "a1" "h1", .addAgent "a2" "h2", .addOffer offerO1]).getAgent "a1"
      = some ⟨"a1", "h1", [("o1", offerO1)], []⟩ ∧
    ("a1" = offerO1.agentId ∧ "a1" = offerO1.agentId ∧ "o1" = offerO1.id) :=
  ⟨by decide,
    (offer_placement [.addAgent "a1" "h1", .addAgent "a2" "h2", .addOffer offerO1]).1
      "a1" ⟨"a1", "h1", [("o1", offerO1)], []⟩ "o1" offerO1 (by decide) (by decide)⟩

/-! ## Lemmas on `launch` -/

theorem gatherPorts_foldl (offers : List Offer) (acc : List Nat) :
    offers.foldl (fun ports offer => ports ++ offer.ports) acc
      = acc ++ offers.flatMap (fun offer => offer.ports) := by
  induction offers generalizing acc with
  | nil => simp
  | cons o rest ih => simp [ih, List.flatMap_cons, List.append_assoc]

theorem gatherPorts_eq (offers : List Offer) :
    gatherPorts offers = offers.flatMap (fun offer => offer.ports) := by
  simp [gatherPorts, gatherPorts_foldl]

/-- What a successful iteration of the first loop of `launch` leaves in the
handle. -/
theorem assignTask_spec {offers : List Offer} {ports : List Nat} {i : Nat} {t t1 : Task}
    (h : assignTask offers ports i t = .ok t1) :
    ∃ o0, offers[0]? = some o0 ∧ t1.agentId = some o0.agentId ∧ t1.taskId = t.taskId ∧
      t1.name = t.name ∧
      (∀ c, t.cfg = some c → t1.cfg = some { c with Port := (ports[i]?).getD c.Port }) ∧
      (t.cfg = none → t1.cfg = none ∧ ports.length ≤ i) := by
  unfold assignTask at h
  by_cases hi : i < ports.length
  · cases hc : t.cfg with
    | none => simp [hi, hc] at h
    | some c =>
      cases ho : offers[0]? with
      | none => simp [hi, hc, ho] at h
      | some o0 =>
        simp only [hi, hc, ho, dite_true, Except.ok.injEq] at h
        subst h
        refine ⟨o0, rfl, rfl, rfl, rfl, ?_, ?_⟩
        · intro c1 hc1
          cases hc1
          simp [List.getElem?_eq_getElem hi]
        · intro hn
          cases hn
  · cases ho : offers[0]? with
    | none => simp [hi, ho] at h
    | some o0 =>
      simp only [hi, ho, dite_false, Except.ok.injEq] at h
      subst h
      refine ⟨o0, rfl, rfl, rfl, rfl, ?_, ?_⟩
      · intro c hc
        simp [hc, List.getElem?_eq_none (Nat.le_of_not_lt hi)]
      · intro hn
        exact ⟨hn, Nat.le_of_not_lt hi⟩

theorem assignTask_succeeds {offers : List Offer} {ports : List Nat} {i : Nat} {t : Task}
    {o0 : Offer} (ho : offers[0]? = some o0) (hc : i < ports.length → t.cfg ≠ none) :
    ∃ t1, assignTask offers ports i t = .ok t1 := by
  unfold assignTask
  by_cases hi : i < ports.length
  · cases hcfg : t.cfg with
    | none => exact absurd hcfg (hc hi)
    | some c => simp [hi, ho]
  · simp [hi, ho]

/-- Why an iteration of the first loop of `launch` panics: the offer list is
empty, or the handle has no configuration and a port is due to it. -/
theorem assignTask_error {offers : List Offer} {ports : List Nat} {i : Nat} {t : Task}
    {stop : Stop} (h : assignTask offers ports i t = .error stop) :
    (stop = .panic ∧ offers[0]? = none) ∨
    (stop = .nilConfig ∧ t.cfg = none ∧ i < ports.length) := by
  unfold assignTask at h
  by_cases hi : i < ports.length
  · cases hc : t.cfg with
    | none =>
      simp only [hi, hc, dite_true, Except.error.injEq] at h
      exact Or.inr ⟨h.symm, rfl, hi⟩
    | some c =>
      cases ho : offers[0]? with
      | none =>
        simp only [hi, hc, ho, dite_true, Except.error.injEq] at h
        exact Or.inl ⟨h.symm, rfl⟩
      | some o0 => simp [hi, hc, ho] at h
  · cases ho : offers[0]? with
    | none =>
      simp only [hi, ho, dite_false, Except.error.injEq] at h
      exact Or.inl ⟨h.symm, rfl⟩
    | some o0 => simp [hi, ho] at h

theorem assignLoop_length (offers : List Offer) (ports : List Nat) :
    ∀ (tasks : List Task) (i : Nat), (assignLoop offers ports i tasks).1.length = tasks.length := by
  intro tasks
  induction tasks with
  | nil => intro i; rfl
  | cons t rest ih =>
    intro i
    unfold assignLoop
    cases assignTask offers ports i t with
    | error stop => rfl
    | ok t1 => simp [ih]

/-- The first loop of `launch` changes neither names nor task ids. -/
theorem assignLoop_names (offers : List Offer) (ports : List Nat) :
    ∀ (tasks : List Task) (i j : Nat) (t1 : Task),
      (assignLoop offers ports i tasks).1[j]? = some t1 →
      ∃ t, tasks[j]? = some t ∧ t1.name = t.name ∧ t1.taskId = t.taskId := by
  intro tasks
  induction tasks with
  | nil => intro i j t1 h; simp [assignLoop] at h
  | cons t rest ih =>
    intro i j t1 h
    unfold assignLoop at h
    cases ha : assignTask offers ports i t with
    | error stop =>
      simp only [ha] at h
      exact ⟨t1, h, rfl, rfl⟩
    | ok u =>
      simp only [ha] at h
      cases j with
      | zero =>
        simp only [List.getElem?_cons_zero, Option.some.injEq] at h
        subst h
        obtain ⟨_, _, _, h1, h2, _⟩ := assignTask_spec ha
        exact ⟨t, by simp, h2, h1⟩
      | succ j =>
        simp only [List.getElem?_cons_succ] at h
        obtain ⟨t2, h1, h2⟩ := ih (i + 1) j t1 h
        exact ⟨t2, by simpa using h1, h2⟩

/-- The handle at position `j` after the first loop of `launch`, when the
iterations up to `j` do not panic. -/
theorem assignLoop_prefix (offers : List Offer) (ports : List Nat) :
    ∀ (tasks : List Task) (i j : Nat) (t : Task), tasks[j]? = some t →
      (∀ (k : Nat) (u : Task), k ≤ j → tasks[k]? = some u →
        ∃ u1, assignTask offers ports (i + k) u = .ok u1) →
      ∃ t1, (assignLoop offers ports i tasks).1[j]? = some t1 ∧
        assignTask offers ports (i + j) t = .ok t1 := by
  intro tasks
  induction tasks with
  | nil => intro i j t h; simp at h
  | cons u rest ih =>
    intro i j t h hok
    obtain ⟨u1, hu1⟩ := hok 0 u (Nat.zero_le _) List.getElem?_cons_zero
    rw [Nat.add_zero] at hu1
    unfold assignLoop
    simp only [hu1]
    cases j with
    | zero =>
      simp only [List.getElem?_cons_zero, Option.some.injEq] at h
      subst h
      exact ⟨u1, by simp, by simpa using hu1⟩
    | succ j =>
      simp only [List.getElem?_cons_succ] at h
      obtain ⟨t1, h1, h2⟩ := ih (i + 1) j t h (by
        intro k v hk hv
        have := hok (k + 1) v (by omega) (by simpa using hv)
        have e : i + (k + 1) = i + 1 + k := by omega
        rw [e] at this
        exact this)
      have e : i + 1 + j = i + (j + 1) := by omega
      rw [e] at h2
      exact ⟨t1, by simpa using h1, h2⟩

/-- The handles after a first loop of `launch` that did not panic. -/
theorem assignLoop_done (offers : List Offer) (ports : List Nat) :
    ∀ (tasks : List Task) (i : Nat), (assignLoop offers ports i tasks).2 = none →
      ∀ (j : Nat) (t : Task), tasks[j]? = some t →
        ∃ t1, (assignLoop offers ports i tasks).1[j]? = some t1 ∧
          assignTask offers ports (i + j) t = .ok t1 := by
  intro tasks
  induction tasks with
  | nil => intro i _ j t h; simp at h
  | cons u rest ih =>
    intro i hnone j t h
    unfold assignLoop at hnone ⊢
    cases hu : assignTask offers ports i u with
    | error stop => simp [hu] at hnone
    | ok u1 =>
      simp only [hu] at hnone ⊢
      cases j with
      | zero =>
        simp only [List.getElem?_cons_zero, Option.some.injEq] at h
        subst h
        exact ⟨u1, by simp, by simpa using hu⟩
      | succ j =>
        simp only [List.getElem?_cons_succ] at h
        obtain ⟨t1, h1, h2⟩ := ih (i + 1) hnone j t h
        have e : i + 1 + j = i + (j + 1) := by omega
        rw [e] at h2
        exact ⟨t1, by simpa using h1, h2⟩

/-- Why the first loop of `launch` panics: the offer list is empty, or some
handle of the batch has no configuration. -/
theorem assignLoop_stop (offers : List Offer) (ports : List Nat) :
    ∀ (tasks : List Task) (i : Nat) (stop : Stop),
      (assignLoop offers ports i tasks).2 = some stop →
      (stop = .panic ∧ offers[0]? = none) ∨
      (stop = .nilConfig ∧ ∃ t ∈ tasks, t.cfg = none) := by
  intro tasks
  induction tasks with
  | nil => intro i stop h; simp [assignLoop] at h
  | cons u rest ih =>
    intro i stop h
    unfold assignLoop at h
    cases hu : assignTask offers ports i u with
    | error st =>
      simp only [hu, Option.some.injEq] at h
      subst h
      rcases assignTask_error hu with h1 | ⟨h1, h2, _⟩
      · exact Or.inl h1
      · exact Or.inr ⟨h1, u, List.mem_cons_self _ _, h2⟩
    | ok u1 =>
      simp only [hu] at h
      rcases ih (i + 1) stop h with h1 | ⟨h1, t, ht, hc⟩
      · exact Or.inl h1
      · exact Or.inr ⟨h1, t, List.mem_cons_of_mem _ ht, hc⟩

/-- The records written by the store loop, position by position. -/
theorem persistLoop_spec {σ : Type} (store : Store σ) (appId : String) (offers : List Offer) :
    ∀ (tasks1 : List Task) (db : σ),
      ((persistLoop store appId offers db tasks1).stop = none →
        (persistLoop store appId offers db tasks1).writes.length = tasks1.length) ∧
      ∀ (j : Nat) (w : String × StoreTask),
        (persistLoop store appId offers db tasks1).writes[j]? = some w →
        ∃ (t1 : Task) (c : TaskConfig), tasks1[j]? = some t1 ∧ t1.cfg = some c ∧
          w.1 = appId ∧ w.2.AgentId = t1.agentId.getD "" ∧
          w.2.Port = c.Port ∧
          ((c.Network = "host" ∨ c.Network = "bridge") →
            ∃ o0, offers[0]? = some o0 ∧ w.2.IP = o0.hostname) ∧
          (¬ (c.Network = "host" ∨ c.Network = "bridge") → w.2.IP = c.IP) := by
  intro tasks1
  induction tasks1 with
  | nil =>
    intro db
    simp [persistLoop]
  | cons t rest ih =>
    intro db
    unfold persistLoop
    cases hg : store.GetTask db appId t.taskId with
    | error err => simp
    | ok task =>
      cases hcfg : t.cfg with
      | none => simp
      | some c =>
        simp only
        by_cases hn : c.Network = "host" ∨ c.Network = "bridge"
        · simp only [hn, if_true]
          cases ho : offers[0]? with
          | none => simp
          | some o0 =>
            simp only
            cases hu : store.UpdateTask db appId _ with
            | error err => simp
            | ok db1 =>
              simp only
              obtain ⟨hlen, hrest⟩ := ih db1
              refine ⟨fun hs => by simp [hlen hs], ?_⟩
              intro j w hj
              cases j with
              | zero =>
                simp only [List.getElem?_cons_zero, Option.some.injEq] at hj
                subst hj
                exact ⟨t, c, by simp, hcfg, rfl, rfl, rfl, fun _ => ⟨o0, rfl, rfl⟩,
                  fun h => absurd hn h⟩
              | succ j =>
                simp only [List.getElem?_cons_succ] at hj
                obtain ⟨t1, c1, ht1, hw⟩ := hrest j w hj
                rw [ho] at hw
                exact ⟨t1, c1, by simpa using ht1, hw⟩
        · simp only [hn, if_false]
          cases hu : store.UpdateTask db appId _ with
          | error err => simp
          | ok db1 =>
            simp only
            obtain ⟨hlen, hrest⟩ := ih db1
            refine ⟨fun hs => by simp [hlen hs], ?_⟩
            intro j w hj
            cases j with
            | zero =>
              simp only [List.getElem?_cons_zero, Option.some.injEq] at hj
              subst hj
              exact ⟨t, c, by simp, hcfg, rfl, rfl, rfl, fun h => absurd h hn, fun _ => rfl⟩
            | succ j =>
              simp only [List.getElem?_cons_succ] at hj
              obtain ⟨t1, c1, ht1, hw⟩ := hrest j w hj
              exact ⟨t1, c1, by simpa using ht1, hw⟩

theorem launch_tasks_eq {σ : Type} (env : Env σ) (s : Scheduler) (db : σ)
    (offers : List Offer) (tasks : List Task) :
    (launch env s db offers tasks).tasks
      = (assignLoop offers (gatherPorts offers) 0 tasks).1 := by
  unfold launch
  simp only
  repeat' split
  all_goals rfl

/-- The shape of a run of `launch`: either it stopped before the store loop,
without a record written or a call accepted, or the first loop completed, the
app id was cut from the first task's name, and the records written are those
of the store loop; a run that got past the ACCEPT call completed the store
loop. -/
theorem launch_shape {σ : Type} (env : Env σ) (s : Scheduler) (db : σ)
    (offers : List Offer) (tasks : List Task) :
    ((launch env s db offers tasks).writes = [] ∧
      (launch env s db offers tasks).ending.accepted = false) ∨
    ∃ t0 appId,
      (assignLoop offers (gatherPorts offers) 0 tasks).2 = none ∧
      (assignLoop offers (gatherPorts offers) 0 tasks).1[0]? = some t0 ∧
      (SplitN2 t0.name)[1]? = some appId ∧
      (launch env s db offers tasks).writes
        = (persistLoop env.store appId offers db
            (assignLoop offers (gatherPorts offers) 0 tasks).1).writes ∧
      ((launch env s db offers tasks).ending.accepted = true →
        (persistLoop env.store appId offers db
          (assignLoop offers (gatherPorts offers) 0 tasks).1).stop = none) := by
  cases h1 : (assignLoop offers (gatherPorts offers) 0 tasks).2 with
  | some stop => left; cases stop <;> simp [launch, h1, Stop.ending, Ending.accepted]
  | none =>
    cases h2 : (assignLoop offers (gatherPorts offers) 0 tasks).1[0]? with
    | none => left; simp [launch, h1, h2, Ending.accepted]
    | some t0 =>
      cases h3 : (SplitN2 t0.name)[1]? with
      | none => left; simp [launch, h1, h2, h3, Ending.accepted]
      | some appId =>
        right
        refine ⟨t0, appId, rfl, rfl, h3, ?_⟩
        cases h4 : (persistLoop env.store appId offers db
            (assignLoop offers (gatherPorts offers) 0 tasks).1).stop with
        | some st =>
          cases st <;> simp [launch, h1, h2, h3, h4, Stop.ending, Ending.accepted]
        | none =>
          cases h5 : offers[0]? with
          | none => simp [launch, h1, h2, h3, h4, h5, Ending.accepted]
          | some o0 =>
            cases h6 : env.Send (Call.accept s.frameworkId (offers.map fun offer => offer.id)
                (assignLoop offers (gatherPorts offers) 0 tasks).1) with
            | error err => simp [launch, h1, h2, h3, h4, h5, h6, Ending.accepted]
            | ok code =>
              by_cases hc : code = StatusAccepted
              · simp [launch, h1, h2, h3, h4, h5, h6, hc]
              · simp [launch, h1, h2, h3, h4, h5, h6, hc, Ending.accepted]

/-- The record written at position `j` by `launch`, in terms of the `j`-th task
of the batch, its configuration and the first offer. -/
theorem launch_record {σ : Type} (env : Env σ) (s : Scheduler) (db : σ)
    (offers : List Offer) (tasks : List Task) (j : Nat) (w : String × StoreTask)
    (h : (launch env s db offers tasks).writes[j]? = some w) :
    ∃ t o0 c, tasks[j]? = some t ∧ t.cfg = some c ∧ offers[0]? = some o0 ∧
      w.2.AgentId = o0.agentId ∧
      w.2.Port = ((offers.flatMap (fun offer => offer.ports))[j]?).getD c.Port ∧
      ((c.Network = "host" ∨ c.Network = "bridge") → w.2.IP = o0.hostname) ∧
      (¬ (c.Network = "host" ∨ c.Network = "bridge") → w.2.IP = c.IP) := by
  rcases launch_shape env s db offers tasks with ⟨hw, _⟩ | ⟨t0, appId, h1, _, _, hw, _⟩
  · rw [hw] at h
    simp at h
  · rw [hw] at h
    obtain ⟨t1, c1, ht1, hc1, _, hag, hport, hhost, hother⟩ :=
      (persistLoop_spec env.store appId offers _ db).2 j w h
    have hlen := assignLoop_length offers (gatherPorts offers) tasks 0
    have hj : j < tasks.length := by
      have := (List.getElem?_eq_some.1 ht1).1
      omega
    obtain ⟨u1, hu1, hassign⟩ := assignLoop_done offers (gatherPorts offers) tasks 0 h1 j
      tasks[j] (List.getElem?_eq_getElem hj)
    rw [ht1, Option.some.injEq] at hu1
    subst hu1
    obtain ⟨o0, ho0, hagent, _, _, hsome, hnone⟩ := assignTask_spec hassign
    cases hc : tasks[j].cfg with
    | none =>
      rw [(hnone hc).1] at hc1
      cases hc1
    | some c =>
      have e := hsome c hc
      rw [hc1, Option.some.injEq] at e
      subst e
      refine ⟨tasks[j], o0, c, List.getElem?_eq_getElem hj, hc, ho0, ?_, ?_, ?_, ?_⟩
      · rw [hag, hagent]; rfl
      · rw [hport, gatherPorts_eq, Nat.zero_add]
      · intro hn
        obtain ⟨o1, ho1, hw1⟩ := hhost hn
        rw [ho0, Option.some.injEq] at ho1
        rw [hw1, ← ho1]
      · intro hn
        exact hother hn

theorem launch_accepted_length {σ : Type} (env : Env σ) (s : Scheduler) (db : σ)
    (offers : List Offer) (tasks : List Task)
    (hacc : (launch env s db offers tasks).ending.accepted = true) :
    (launch env s db offers tasks).writes.length = tasks.length := by
  rcases launch_shape env s db offers tasks with ⟨_, he⟩ | ⟨t0, appId, h1, _, _, hw, hs⟩
  · rw [he] at hacc
    cases hacc
  · rw [hw, (persistLoop_spec env.store appId offers _ db).1 (hs hacc)]
    exact assignLoop_length offers (gatherPorts offers) tasks 0

/-! ## C4: records persisted by a successful launch -/

/-- C4, as stated, fails on the ports: with three tasks on an offer holding one
port, the launch succeeds, the second and third records keep port 0, which is
no offer port, and share it; with two tasks on an offer naming port 31000
twice, both records are persisted with port 31000. -/
theorem launch_port_claim_fails :
    (shortPoolRun.ending.accepted = true ∧
      (∃ w ∈ shortPoolRun.writes, w.2.Port ∉ onePortOffer.ports) ∧
      ¬ (shortPoolRun.writes.map (fun w => w.2.Port)).Nodup) ∧
    (twinPortRun.ending.accepted = true ∧
      ¬ (twinPortRun.writes.map (fun w => w.2.Port)).Nodup) := by
  refine ⟨⟨by decide, by decide, by decide⟩, by decide, by decide⟩

/-- C4 (amended): after a launch that got past an ACCEPT answered 202, on offers
that all name the chosen agent, one record is written per task of the batch;
every record has the chosen agent's id; the record of a task at an index below
the number of offer ports has the offer port at that index, which is one of the
offer ports; the record of a task at a later index keeps the task's configured
port; and when the offer ports are pairwise distinct, no two tasks at indexes
below the number of offer ports are persisted with the same port. -/
theorem launch_persists_agent_and_ports {σ : Type} (env : Env σ) (s : Scheduler) (db : σ)
    (chosen : Agent) (offers : List Offer) (tasks : List Task)
    (hfrom : ∀ o ∈ offers, o.agentId = chosen.id)
    (hacc : (launch env s db offers tasks).ending.accepted = true) :
    (launch env s db offers tasks).writes.length = tasks.length ∧
    (∀ (j : Nat) (w : String × StoreTask),
      (launch env s db offers tasks).writes[j]? = some w →
        w.2.AgentId = chosen.id ∧
        (j < (offers.flatMap (fun offer => offer.ports)).length →
          (offers.flatMap (fun offer => offer.ports))[j]? = some w.2.Port ∧
          w.2.Port ∈ offers.flatMap (fun offer => offer.ports)) ∧
        ((offers.flatMap (fun offer => offer.ports)).length ≤ j →
          ∃ t c, tasks[j]? = some t ∧ t.cfg = some c ∧ w.2.Port = c.Port)) ∧
    ((offers.flatMap (fun offer => offer.ports)).Nodup →
      ∀ (j1 j2 : Nat) (w1 w2 : String × StoreTask),
        j1 < (offers.flatMap (fun offer => offer.ports)).length →
        j2 < (offers.flatMap (fun offer => offer.ports)).length → j1 ≠ j2 →
        (launch env s db offers tasks).writes[j1]? = some w1 →
        (launch env s db offers tasks).writes[j2]? = some w2 → w1.2.Port ≠ w2.2.Port) := by
  have hrec : ∀ (j : Nat) (w : String × StoreTask),
      (launch env s db offers tasks).writes[j]? = some w →
      j < (offers.flatMap (fun offer => offer.ports)).length →
      (offers.flatMap (fun offer => offer.ports))[j]? = some w.2.Port := by
    intro j w hw hj
    obtain ⟨t, o0, c, _, _, _, _, hport, _⟩ := launch_record env s db offers tasks j w hw
    rw [hport, List.getElem?_eq_getElem hj]
    rfl
  refine ⟨launch_accepted_length env s db offers tasks hacc, ?_, ?_⟩
  · intro j w hw
    obtain ⟨t, o0, c, ht, hc, ho0, hag, hport, _⟩ := launch_record env s db offers tasks j w hw
    refine ⟨?_, ?_, ?_⟩
    · rw [hag]
      exact hfrom o0 (List.getElem?_mem ho0)
    · intro hj
      exact ⟨hrec j w hw hj, List.getElem?_mem (hrec j w hw hj)⟩
    · intro hj
      refine ⟨t, c, ht, hc, ?_⟩
      rw [hport, List.getElem?_eq_none hj]
      rfl
  · intro hnd j1 j2 w1 w2 h1 h2 hne hw1 hw2 heq
    have e1 := hrec j1 w1 hw1 h1
    have e2 := hrec j2 w2 hw2 h2
    rw [List.getElem?_eq_getElem h1] at e1
    rw [List.getElem?_eq_getElem h2] at e2
    have e : (offers.flatMap (fun offer => offer.ports))[j1]
        = (offers.flatMap (fun offer => offer.ports))[j2] := by
      have e1 := Option.some.inj e1
      have e2 := Option.some.inj e2
      rw [e1, e2, heq]
    exact hne ((List.Nodup.getElem_inj_iff hnd).1 e)

/-- C4 on the launch of three tasks on the three-port offer of `a1`: three
records are written. -/
theorem launch_persists_agent_and_ports_witness :
    (∀ o ∈ [offerO1], o.agentId = (newAgent "a1" "h1").id) ∧
    threeTaskLaunch.ending.accepted = true ∧
    threeTaskLaunch.writes.length = 3 :=
  ⟨by decide, by decide,
    (launch_persists_agent_and_ports runningEnv reservedRegistry storedTasks (newAgent "a1" "h1")
      [offerO1] [taskT1, taskT2, taskT3] (by decide) (by decide)).1⟩

/-! ## C5: port ordering -/

/-- C5, as stated, fails on a handle without configuration: `KillTask` attaches
such a handle for task `0.app` to agent `a1`; a TASK_FAILED update for that
task makes `handleEvent` queue the handle for relaunch; `LaunchTasks` on it,
with the three ports of `offerO1` reserved, stops on the nil-pointer panic of
the first loop of `launch`, and the handle at index 0 is neither assigned nor
persisted with the first port. -/
theorem launch_kill_handle_unassigned :
    (handleEvent initHandlers killWaitRegistry noDispatch
      (.update (statusOf "0.app" .TASK_FAILED))).failedTasks = [killHandle] ∧
    selectLoop runningEnv killWaitRegistry killHandle.cfg 1 0 []
      = .chosen ⟨"a1", "h1", [("o1", offerO1)], [("0.app", killHandle)]⟩ [offerO1] ∧
    (0 < [killHandle].length ∧
      0 < ([offerO1].flatMap (fun offer => offer.ports)).length) ∧
    killHandleRun.ending = .nilConfig ∧
    killHandleRun.tasks = [killHandle] ∧ killHandle.cfg = none ∧
    killHandleRun.writes = [] := by
  refine ⟨by decide, by decide, ⟨by decide, by decide⟩, by decide, by decide, by decide,
    by decide⟩

/-- C5 (amended): with `P` the concatenation of the offers' port lists in the
order of the offer list, for every index `i` below both the batch length and
the length of `P` such that the handles at the indexes up to `i` carry a
configuration, `launch` assigns port `P[i]` to the `i`-th task handle; every
record written for the `i`-th task has port `P[i]`; and a launch that got past
the ACCEPT call has written that record. -/
theorem launch_port_order {σ : Type} (env : Env σ) (s : Scheduler) (db : σ)
    (offers : List Offer) (tasks : List Task) (i : Nat) (hi : i < tasks.length)
    (hp : i < (offers.flatMap (fun offer => offer.ports)).length)
    (hcfg : ∀ (k : Nat) (u : Task), k ≤ i → tasks[k]? = some u → u.cfg ≠ none) :
    (∃ t c, (launch env s db offers tasks).tasks[i]? = some t ∧ t.cfg = some c ∧
      c.Port = (offers.flatMap (fun offer => offer.ports))[i]) ∧
    (∀ w : String × StoreTask, (launch env s db offers tasks).writes[i]? = some w →
      w.2.Port = (offers.flatMap (fun offer => offer.ports))[i]) ∧
    ((launch env s db offers tasks).ending.accepted = true →
      ∃ w : String × StoreTask, (launch env s db offers tasks).writes[i]? = some w ∧
        w.2.Port = (offers.flatMap (fun offer => offer.ports))[i]) := by
  have hw : ∀ w : String × StoreTask, (launch env s db offers tasks).writes[i]? = some w →
      w.2.Port = (offers.flatMap (fun offer => offer.ports))[i] := by
    intro w h
    obtain ⟨t, o0, c, _, _, _, _, hport, _⟩ := launch_record env s db offers tasks i w h
    rw [hport, List.getElem?_eq_getElem hp]
    rfl
  refine ⟨?_, hw, ?_⟩
  · cases offers with
    | nil => simp at hp
    | cons o0 rest =>
      have ho : (o0 :: rest)[0]? = some o0 := List.getElem?_cons_zero
      obtain ⟨t1, ht1, hassign⟩ :=
        assignLoop_prefix (o0 :: rest) (gatherPorts (o0 :: rest)) tasks 0 i tasks[i]
          (List.getElem?_eq_getElem hi)
          (fun k u hk hu => assignTask_succeeds ho (fun _ => hcfg k u hk hu))
      obtain ⟨_, _, _, _, _, hsome, _⟩ := assignTask_spec hassign
      cases hc : tasks[i].cfg with
      | none => exact absurd hc (hcfg i tasks[i] (Nat.le_refl _) (List.getElem?_eq_getElem hi))
      | some c =>
        refine ⟨t1, _, by rw [launch_tasks_eq]; exact ht1, hsome c hc, ?_⟩
        simp only [gatherPorts_eq, Nat.zero_add, List.getElem?_eq_getElem hp]
        rfl
  · intro hacc
    have hlen := launch_accepted_length env s db offers tasks hacc
    have hi2 : i < (launch env s db offers tasks).writes.length := by omega
    exact ⟨_, List.getElem?_eq_getElem hi2, hw _ (List.getElem?_eq_getElem hi2)⟩

theorem threeTasks_configured :
    ∀ (k : Nat) (u : Task), k ≤ 1 → [taskT1, taskT2, taskT3][k]? = some u → u.cfg ≠ none := by
  intro k u hk hu
  have hk2 : k = 0 ∨ k = 1 := by omega
  rcases hk2 with h | h
  · subst h
    simp only [List.getElem?_cons_zero, Option.some.injEq] at hu
    subst hu
    decide
  · subst h
    simp only [List.getElem?_cons_succ, List.getElem?_cons_zero, Option.some.injEq] at hu
    subst hu
    decide

/-- C5 on the launch of three tasks on the three-port offer of `a1`: the second
task is assigned and persisted with the second port. -/
theorem launch_port_order_witness :
    (1 < [taskT1, taskT2, taskT3].length ∧
      1 < ([offerO1].flatMap (fun offer => offer.ports)).length ∧
      ∀ (k : Nat) (u : Task), k ≤ 1 → [taskT1, taskT2, taskT3][k]? = some u → u.cfg ≠ none) ∧
    ∃ t c, threeTaskLaunch.tasks[1]? = some t ∧ t.cfg = some c ∧ c.Port = 31001 :=
  ⟨⟨by decide, by decide, threeTasks_configured⟩,
    (launch_port_order runningEnv reservedRegistry storedTasks [offerO1]
      [taskT1, taskT2, taskT3] 1 (by decide) (by decide) threeTasks_configured).1⟩

/-! ## C6: IP resolution -/

/-- C6: for every task of the batch for which `launch` wrote a record, the task
has a configuration and the persisted IP is the hostname of the first offer
when the configured network is exactly `host` or `bridge`, and the configured
IP for every other network value. -/
theorem launch_ip_resolution {σ : Type} (env : Env σ) (s : Scheduler) (db : σ)
    (offers : List Offer) (tasks : List Task) (j : Nat) (t : Task) (w : String × StoreTask)
    (ht : tasks[j]? = some t)
    (hw : (launch env s db offers tasks).writes[j]? = some w) :
    ∃ c, t.cfg = some c ∧
      ((c.Network = "host" ∨ c.Network = "bridge") →
        ∃ o0, offers[0]? = some o0 ∧ w.2.IP = o0.hostname) ∧
      (¬ (c.Network = "host" ∨ c.Network = "bridge") → w.2.IP = c.IP) := by
  obtain ⟨t1, o0, c, ht1, hc, ho0, _, _, hhost, hother⟩ :=
    launch_record env s db offers tasks j w hw
  rw [ht, Option.some.injEq] at ht1
  subst ht1
  exact ⟨c, hc, fun h => ⟨o0, ho0, hhost h⟩, hother⟩

/-- C6 on the launch of three tasks on the offer of `a1`: the record of the
third task, on the network `swan`, keeps the configured address. -/
theorem launch_ip_resolution_witness :
    ([taskT1, taskT2, taskT3][2]? = some taskT3 ∧
      threeTaskLaunch.writes[2]? = some ("app", ⟨"t3", "a1", "10.0.0.3", 31002⟩)) ∧
    ∃ c, taskT3.cfg = some c ∧
      ((c.Network = "host" ∨ c.Network = "bridge") →
        ∃ o0, [offerO1][0]? = some o0 ∧ "10.0.0.3" = o0.hostname) ∧
      (¬ (c.Network = "host" ∨ c.Network = "bridge") → "10.0.0.3" = c.IP) :=
  ⟨⟨by decide, by decide⟩,
    launch_ip_resolution runningEnv reservedRegistry storedTasks [offerO1]
      [taskT1, taskT2, taskT3] 2 taskT3
      ("app", ⟨"t3", "a1", "10.0.0.3", 31002⟩) (by decide) (by decide)⟩

/-! ## C7: `DetectError` -/

/-- C7: `Scheduler.DetectError` returns an error exactly for the states
TASK_FAILED, TASK_ERROR, TASK_LOST, TASK_DROPPED, TASK_UNREACHABLE, TASK_GONE,
TASK_GONE_BY_OPERATOR and TASK_UNKNOWN; the error is then the JSON object with
exactly the keys healthy, message, reason, source and state, taken from the
status; for the states staging, starting, running, finished, killed and
killing it returns nil. -/
theorem detectError_classification (status : TaskStatus) :
    ((DetectError status).isSome = true ↔
      status.state ∈ [TaskState.TASK_FAILED, .TASK_ERROR, .TASK_LOST, .TASK_DROPPED,
        .TASK_UNREACHABLE, .TASK_GONE, .TASK_GONE_BY_OPERATOR, .TASK_UNKNOWN]) ∧
    (∀ obj, DetectError status = some obj →
      obj = [("healthy", .bool status.GetHealthy), ("message", .str status.message),
        ("reason", .str status.reason), ("source", .str status.source),
        ("state", .str status.state.String)] ∧
      obj.map Prod.fst = ["healthy", "message", "reason", "source", "state"]) ∧
    (status.state ∈ [TaskState.TASK_STAGING, .TASK_STARTING, .TASK_RUNNING, .TASK_FINISHED,
        .TASK_KILLED, .TASK_KILLING] → DetectError status = none) := by
  obtain ⟨taskId, agentId, state, message, source, reason, healthy, uuid⟩ := status
  cases state <;> simp [DetectError]

/-- C7 on a failed status and on a running status. -/
theorem detectError_classification_witness :
    (DetectError (statusOf "t1" .TASK_FAILED)).isSome = true ∧
    DetectError (statusOf "t1" .TASK_RUNNING) = none :=
  ⟨(detectError_classification (statusOf "t1" .TASK_FAILED)).1.2 (by decide),
    (detectError_classification (statusOf "t1" .TASK_RUNNING)).2.2 (by decide)⟩

/-! ## C8: filter timeout -/

theorem applyFilters_error {σ : Type} (env : Env σ) (s : Scheduler) (config : Option TaskConfig) :
    ∀ (polls : Nat) (err : String), applyFilters env s config polls = .error err →
      err = errResourceNotEnough := by
  intro polls
  induction polls with
  | zero =>
    intro err h
    simp only [applyFilters, Except.error.injEq] at h
    exact h.symm
  | succ n ih =>
    intro err h
    unfold applyFilters at h
    simp only at h
    split at h
    · cases h
    · exact ih err h

theorem selectLoop_timedOut {σ : Type} (env : Env σ) (s : Scheduler) (config : Option TaskConfig) :
    ∀ (fuel round : Nat) (offers : List Offer) (err : String),
      selectLoop env s config fuel round offers = .timedOut err →
      err = errResourceNotEnough := by
  intro fuel
  induction fuel with
  | zero => intro round offers err h; simp [selectLoop] at h
  | succ n ih =>
    intro round offers err h
    unfold selectLoop at h
    cases hf : applyFilters env s config (env.timer round) with
    | error e =>
      simp only [hf, Selection.timedOut.injEq] at h
      subst h
      exact applyFilters_error env s config _ _ hf
    | ok filtered =>
      simp only [hf] at h
      split at h
      · cases h
      · exact ih _ _ err h

/-- C8: when the filter-rank-select loop of `LaunchTasks` ends with the filter
step timing out, `LaunchTasks` returns the error resource-not-enough and no
result map, sends no call, writes nothing to the store, consumes no status,
and leaves the scheduler, registry included, as it was. -/
theorem filter_timeout_leaves_registry {σ : Type} (env : Env σ) (fuel : Nat) (s : Scheduler)
    (db : σ) (t0 : Task) (rest : List Task) (err : String)
    (h : selectLoop env s t0.cfg fuel 0 [] = .timedOut err) :
    (LaunchTasks env fuel s db (t0 :: rest)).ending = .failed errResourceNotEnough ∧
    (LaunchTasks env fuel s db (t0 :: rest)).calls = [] ∧
    (LaunchTasks env fuel s db (t0 :: rest)).sched = s ∧
    (LaunchTasks env fuel s db (t0 :: rest)).writes = [] ∧
    (LaunchTasks env fuel s db (t0 :: rest)).consumed = 0 := by
  have he := selectLoop_timedOut env s t0.cfg fuel 0 [] err h
  subst he
  simp [LaunchTasks, h]

/-- C8 on a filter chain that no agent passes: after three polls the loop times
out and the registry holding `offerO1` is untouched. -/
theorem filter_timeout_leaves_registry_witness :
    selectLoop noFitEnv oneOfferRegistry taskT1.cfg 5 0 [] = .timedOut errResourceNotEnough ∧
    (LaunchTasks noFitEnv 5 oneOfferRegistry storedTasks [taskT1]).sched = oneOfferRegistry :=
  ⟨by decide,
    (filter_timeout_leaves_registry noFitEnv 5 oneOfferRegistry storedTasks taskT1 []
      errResourceNotEnough (by decide)).2.2.1⟩

/-! ## C9: ACCEPT failure -/

/-- When `launch` sent a call and the call failed or was not answered 202, the
call is the ACCEPT call for the offers, `launch` returns an error, consumes no
status and leaves the registry as it got it. -/
theorem launch_accept_failure {σ : Type} (env : Env σ) (s : Scheduler) (db : σ)
    (offers : List Offer) (tasks : List Task) (call : Call)
    (hcall : (launch env s db offers tasks).calls = [call])
    (hfail : (∃ e, env.Send call = .error e) ∨
      (∃ code, env.Send call = .ok code ∧ code ≠ StatusAccepted)) :
    (∃ err, (launch env s db offers tasks).ending = .failed err) ∧
    (launch env s db offers tasks).consumed = 0 ∧
    (launch env s db offers tasks).sched = s ∧
    call = Call.accept s.frameworkId (offers.map fun offer => offer.id)
      (launch env s db offers tasks).tasks := by
  cases h1 : (assignLoop offers (gatherPorts offers) 0 tasks).2 with
  | some stop => simp [launch, h1] at hcall
  | none =>
    cases h2 : (assignLoop offers (gatherPorts offers) 0 tasks).1[0]? with
    | none => simp [launch, h1, h2] at hcall
    | some t0 =>
      cases h3 : (SplitN2 t0.name)[1]? with
      | none => simp [launch, h1, h2, h3] at hcall
      | some appId =>
        cases h4 : (persistLoop env.store appId offers db
            (assignLoop offers (gatherPorts offers) 0 tasks).1).stop with
        | some st => simp [launch, h1, h2, h3, h4] at hcall
        | none =>
          cases h5 : offers[0]? with
          | none => simp [launch, h1, h2, h3, h4, h5] at hcall
          | some o0 =>
            cases h6 : env.Send
                (Call.accept s.frameworkId (offers.map fun offer => offer.id)
                  (assignLoop offers (gatherPorts offers) 0 tasks).1) with
            | error err =>
              simp [launch, h1, h2, h3, h4, h5, h6] at hcall ⊢
              exact hcall.symm
            | ok code =>
              by_cases hc : code = StatusAccepted
              · have hcall2 : Call.accept s.frameworkId (offers.map fun offer => offer.id)
                    (assignLoop offers (gatherPorts offers) 0 tasks).1 = call := by
                  simpa [launch, h1, h2, h3, h4, h5, h6, hc] using hcall
                rw [← hcall2, h6] at hfail
                rcases hfail with ⟨e, he⟩ | ⟨c, hc1, hc2⟩
                · cases he
                · simp only [Except.ok.injEq] at hc1
                  exact absurd (hc1 ▸ hc) hc2
              · simp [launch, h1, h2, h3, h4, h5, h6, hc] at hcall ⊢
                exact hcall.symm

theorem offerAt_attachTask (s : Scheduler) (a : Agent) (t : Task) (k i : String) :
    (s.attachTask a t).offerAt k i = s.offerAt k i := by
  unfold Scheduler.attachTask
  cases ha : s.getAgent a.id with
  | none => rfl
  | some b =>
    unfold Scheduler.offerAt
    simp only [getAgent_writeAgent]
    by_cases hk : a.id = k
    · subst hk
      simp [ha, Agent.getOffer, Agent.addTask]
    · simp [hk]

theorem offerAt_attachTasks (a : Agent) (tasks : List Task) (k i : String) :
    ∀ s : Scheduler,
      (tasks.foldl (fun s task => s.attachTask a task) s).offerAt k i = s.offerAt k i := by
  induction tasks with
  | nil => intro s; rfl
  | cons t rest ih =>
    intro s
    simp only [List.foldl_cons]
    rw [ih, offerAt_attachTask]

theorem wellPlaced_attachTask {s : Scheduler} (h : WellPlaced s) (a : Agent) (t : Task) :
    WellPlaced (s.attachTask a t) := by
  unfold Scheduler.attachTask
  cases ha : s.getAgent a.id with
  | none => exact h
  | some b =>
    have hw := wellPlaced_agent h ha
    exact wellPlaced_writeAgent h _ _ hw.1 hw.2

theorem wellPlaced_attachTasks (a : Agent) (tasks : List Task) :
    ∀ s : Scheduler, WellPlaced s →
      WellPlaced (tasks.foldl (fun s task => s.attachTask a task) s) := by
  induction tasks with
  | nil => intro s h; exact h
  | cons t rest ih => intro s h; exact ih _ (wellPlaced_attachTask h a t)

/-- `Scheduler.removeOffer` stores no offer that was not stored before. -/
theorem offerAt_removeOffer_some (s : Scheduler) (x : Offer) (k i : String) (o : Offer)
    (h : (s.removeOffer x).2.offerAt k i = some o) : s.offerAt k i = some o := by
  cases ha : s.getAgent x.agentId with
  | none =>
    rw [getAgent_removeOffer_none s x ha] at h
    exact h
  | some a =>
    unfold Scheduler.offerAt at h ⊢
    rw [getAgent_removeOffer s x a ha k] at h
    by_cases hk : x.agentId = k
    · subst hk
      simp only [if_true] at h
      rw [ha]
      cases he : (a.removeOffer x.id).2.empty with
      | true => simp [he] at h
      | false =>
        simp only [he, Bool.false_eq_true, if_false, Agent.getOffer,
          removeOffer_offers_get] at h
        by_cases hi : x.id = i
        · simp [hi] at h
        · simpa [hi, Agent.getOffer] using h
    · simpa [hk] using h

theorem offerAt_removeOffers_some (offers : List Offer) (k i : String) (o : Offer) :
    ∀ s : Scheduler,
      (offers.foldl (fun s offer => (s.removeOffer offer).2) s).offerAt k i = some o →
      s.offerAt k i = some o := by
  induction offers with
  | nil => intro s h; exact h
  | cons x rest ih =>
    intro s h
    exact offerAt_removeOffer_some s x k i o (ih _ h)

/-- In a well-placed registry, the offer passed to `Scheduler.removeOffer` is
stored nowhere afterwards. -/
theorem removeOffer_absent {s : Scheduler} (hwp : WellPlaced s) (x : Offer) (k i : String) :
    (s.removeOffer x).2.offerAt k i ≠ some x := by
  intro h
  have hwp2 := wellPlaced_removeOffer hwp x
  obtain ⟨b, hb, hbo, _, hmem⟩ := offerAt_some h
  have hw := wellPlaced_agent hwp2 hb
  have hk : x.agentId = k := (hw.2 _ hmem).2
  have hi : x.id = i := (hw.2 _ hmem).1
  subst hk; subst hi
  cases ha : s.getAgent x.agentId with
  | none =>
    rw [getAgent_removeOffer_none s x ha] at hb
    simp [ha] at hb
  | some a =>
    rw [getAgent_removeOffer s x a ha] at hb
    cases he : (a.removeOffer x.id).2.empty with
    | true => simp [he] at hb
    | false =>
      simp [he] at hb
      subst hb
      rw [removeOffer_offers_get] at hbo
      simp at hbo

theorem wellPlaced_removeOffers (offers : List Offer) :
    ∀ s : Scheduler, WellPlaced s →
      WellPlaced (offers.foldl (fun s offer => (s.removeOffer offer).2) s) := by
  induction offers with
  | nil => intro s h; exact h
  | cons x rest ih => intro s h; exact ih _ (wellPlaced_removeOffer h x)

theorem removeOffers_absent (offers : List Offer) :
    ∀ s : Scheduler, WellPlaced s → ∀ o ∈ offers, ∀ k i,
      (offers.foldl (fun s offer => (s.removeOffer offer).2) s).offerAt k i ≠ some o := by
  induction offers with
  | nil => intro s _ o ho; simp at ho
  | cons x rest ih =>
    intro s hwp o ho k i
    simp only [List.foldl_cons]
    rcases List.mem_cons.1 ho with h | h
    · subst h
      intro hc
      exact removeOffer_absent hwp o k i (offerAt_removeOffers_some rest k i o _ hc)
    · exact ih _ (wellPlaced_removeOffer hwp x) o h k i

/-- After the reserve step on a well-placed registry, no reserved offer is
stored on any agent. -/
theorem reserve_absent {s : Scheduler} (hwp : WellPlaced s) (a : Agent) (offers : List Offer)
    (tasks : List Task) :
    ∀ o ∈ offers, ∀ k i, (s.reserve a offers tasks).offerAt k i ≠ some o := by
  unfold Scheduler.reserve
  exact removeOffers_absent offers _ (wellPlaced_attachTasks a tasks s hwp)

theorem wellPlaced_reserve {s : Scheduler} (hwp : WellPlaced s) (a : Agent)
    (offers : List Offer) (tasks : List Task) : WellPlaced (s.reserve a offers tasks) := by
  unfold Scheduler.reserve
  exact wellPlaced_removeOffers offers _ (wellPlaced_attachTasks a tasks s hwp)

theorem frameworkId_removeOffer (s : Scheduler) (x : Offer) :
    (s.removeOffer x).2.frameworkId = s.frameworkId := by
  unfold Scheduler.removeOffer
  cases s.getAgent x.agentId with
  | none => rfl
  | some a =>
    simp only
    split <;> rfl

theorem frameworkId_attachTask (s : Scheduler) (a : Agent) (t : Task) :
    (s.attachTask a t).frameworkId = s.frameworkId := by
  unfold Scheduler.attachTask
  cases s.getAgent a.id <;> rfl

theorem frameworkId_reserve (s : Scheduler) (a : Agent) (offers : List Offer)
    (tasks : List Task) : (s.reserve a offers tasks).frameworkId = s.frameworkId := by
  unfold Scheduler.reserve
  have h1 : ∀ (l : List Task) (s : Scheduler),
      (l.foldl (fun s task => s.attachTask a task) s).frameworkId = s.frameworkId := by
    intro l
    induction l with
    | nil => intro s; rfl
    | cons t rest ih => intro s; simp only [List.foldl_cons]; rw [ih, frameworkId_attachTask]
  have h2 : ∀ (l : List Offer) (s : Scheduler),
      (l.foldl (fun s offer => (s.removeOffer offer).2) s).frameworkId = s.frameworkId := by
    intro l
    induction l with
    | nil => intro s; rfl
    | cons x rest ih => intro s; simp only [List.foldl_cons]; rw [ih, frameworkId_removeOffer]
  simp only
  rw [h2, h1]

theorem launchTasks_chosen {σ : Type} (env : Env σ) (fuel : Nat) (s : Scheduler) (db : σ)
    (t0 : Task) (rest : List Task) (a : Agent) (offers : List Offer)
    (hsel : selectLoop env s t0.cfg fuel 0 [] = .chosen a offers) :
    LaunchTasks env fuel s db (t0 :: rest)
      = launch env (s.reserve a offers (t0 :: rest)) db offers (t0 :: rest) := by
  simp [LaunchTasks, hsel]

/-- C9: when `LaunchTasks`, on a well-placed registry, chose an agent and sent
its ACCEPT call, and the call failed to send or was answered with a code other
than 202, then `LaunchTasks` returns an error and no result map, consumes no
task status, the call sent is the ACCEPT of the reserved offers, and no
reserved offer is stored on any agent of the registry afterwards. -/
theorem accept_failure_returns_error {σ : Type} (env : Env σ) (fuel : Nat) (s : Scheduler)
    (db : σ) (t0 : Task) (rest : List Task) (a : Agent) (offers : List Offer) (call : Call)
    (hwp : WellPlaced s)
    (hsel : selectLoop env s t0.cfg fuel 0 [] = .chosen a offers)
    (hcall : (LaunchTasks env fuel s db (t0 :: rest)).calls = [call])
    (hfail : (∃ e, env.Send call = .error e) ∨
      (∃ code, env.Send call = .ok code ∧ code ≠ StatusAccepted)) :
    (∃ err, (LaunchTasks env fuel s db (t0 :: rest)).ending = .failed err) ∧
    (LaunchTasks env fuel s db (t0 :: rest)).consumed = 0 ∧
    (∃ taskInfos, call = Call.accept s.frameworkId (offers.map fun offer => offer.id) taskInfos) ∧
    (∀ o ∈ offers, ∀ k i,
      (LaunchTasks env fuel s db (t0 :: rest)).sched.offerAt k i ≠ some o) := by
  rw [launchTasks_chosen env fuel s db t0 rest a offers hsel] at hcall ⊢
  obtain ⟨herr, hcons, hsched, hc⟩ :=
    launch_accept_failure env _ db offers (t0 :: rest) call hcall hfail
  rw [frameworkId_reserve] at hc
  refine ⟨herr, hcons, ⟨_, hc⟩, ?_⟩
  rw [hsched]
  exact reserve_absent hwp a offers (t0 :: rest)

/-- C9 on an ACCEPT call answered 500 for a task launched on the agent holding
`offerO1`: the launch fails and `offerO1` is gone from the registry. -/
theorem accept_failure_returns_error_witness :
    (WellPlaced oneOfferRegistry ∧
      selectLoop (answerEnv 500) oneOfferRegistry taskT1.cfg 1 0 []
        = .chosen ⟨"a1", "h1", [("o1", offerO1)], []⟩ [offerO1] ∧
      (LaunchTasks (answerEnv 500) 1 oneOfferRegistry storedTasks [taskT1]).calls
        = [Call.accept none ["o1"] [⟨"t1", "0.app", some ⟨"", "host", 31000⟩, some "a1"⟩]]) ∧
    (∃ err, (LaunchTasks (answerEnv 500) 1 oneOfferRegistry storedTasks [taskT1]).ending
      = .failed err) :=
  ⟨⟨⟨by unfold KeysMatch; decide, by unfold OffersPlaced; decide⟩, by decide, by decide⟩,
    (accept_failure_returns_error (answerEnv 500) 1 oneOfferRegistry storedTasks taskT1 []
      ⟨"a1", "h1", [("o1", offerO1)], []⟩ [offerO1]
      (Call.accept none ["o1"] [⟨"t1", "0.app", some ⟨"", "host", 31000⟩, some "a1"⟩])
      ⟨by unfold KeysMatch; decide, by unfold OffersPlaced; decide⟩ (by decide) (by decide)
      (Or.inr ⟨500, rfl, by decide⟩)).1⟩

theorem wellPlaced_dropTask {s : Scheduler} (h : WellPlaced s) (agentId taskId : String) :
    WellPlaced (s.dropTask agentId taskId) := by
  unfold Scheduler.dropTask
  cases ha : s.getAgent agentId with
  | none => exact h
  | some b =>
    have hw := wellPlaced_agent h ha
    refine wellPlaced_writeAgent h _ _ ?_ ?_
    · unfold Agent.removeTask
      split
      · exact hw.1
      · exact hw.1
    · unfold Agent.removeTask
      split
      · exact hw.2
      · exact hw.2

/-! ## C10: agent selection -/

theorem selectAgent_first (pre : List Agent) (a : Agent) (post : List Agent)
    (offers0 : List Offer) (hpre : ∀ c ∈ pre, c.getOffers = []) (ha : a.getOffers ≠ []) :
    selectAgent (pre ++ a :: post) offers0 = (some a, a.getOffers) := by
  induction pre generalizing offers0 with
  | nil =>
    have hlen : a.getOffers.length > 0 := List.length_pos.2 ha
    simp [selectAgent, hlen]
  | cons c rest ih =>
    have hc : c.getOffers = [] := hpre c (List.mem_cons_self _ _)
    have hrest : ∀ d ∈ rest, d.getOffers = [] := fun d hd => hpre d (List.mem_cons_of_mem _ hd)
    simp [selectAgent, hc, ih _ hrest]

theorem selectAgent_none (candidates : List Agent) (offers0 : List Offer)
    (h : ∀ c ∈ candidates, c.getOffers = []) : (selectAgent candidates offers0).1 = none := by
  induction candidates generalizing offers0 with
  | nil => rfl
  | cons c rest ih =>
    have hc : c.getOffers = [] := h c (List.mem_cons_self _ _)
    have hrest : ∀ d ∈ rest, d.getOffers = [] := fun d hd => h d (List.mem_cons_of_mem _ hd)
    simp [selectAgent, hc, ih _ hrest]

theorem exists_first_with_offers (candidates : List Agent)
    (h : ∃ c ∈ candidates, c.getOffers ≠ []) :
    ∃ pre a post, candidates = pre ++ a :: post ∧ (∀ c ∈ pre, c.getOffers = []) ∧
      a.getOffers ≠ [] := by
  induction candidates with
  | nil => obtain ⟨c, hc, _⟩ := h; simp at hc
  | cons c rest ih =>
    by_cases hc : c.getOffers = []
    · obtain ⟨d, hd, hdo⟩ := h
      rcases List.mem_cons.1 hd with hd1 | hd1
      · subst hd1; exact absurd hc hdo
      · obtain ⟨pre, a, post, he, hpre, ha⟩ := ih ⟨d, hd1, hdo⟩
        refine ⟨c :: pre, a, post, by simp [he], ?_, ha⟩
        intro x hx
        rcases List.mem_cons.1 hx with hx1 | hx1
        · subst hx1; exact hc
        · exact hpre x hx1
    · exact ⟨[], c, rest, rfl, by simp, hc⟩

theorem selectAgent_some (candidates : List Agent) (offers0 offers : List Offer) (a : Agent)
    (h : selectAgent candidates offers0 = (some a, offers)) :
    offers = a.getOffers ∧ a.getOffers ≠ [] ∧
    ∃ pre post, candidates = pre ++ a :: post ∧ ∀ c ∈ pre, c.getOffers = [] := by
  induction candidates generalizing offers0 with
  | nil => simp [selectAgent] at h
  | cons c rest ih =>
    unfold selectAgent at h
    by_cases hc : c.getOffers.length > 0
    · simp only [hc, if_true, Prod.mk.injEq, Option.some.injEq] at h
      obtain ⟨h1, h2⟩ := h
      subst h1
      exact ⟨h2.symm, List.length_pos.1 hc, [], rest, rfl, by simp⟩
    · simp only [hc, if_false] at h
      obtain ⟨e1, e2, pre, post, he, hpre⟩ := ih _ h
      refine ⟨e1, e2, c :: pre, post, by simp [he], ?_⟩
      intro x hx
      rcases List.mem_cons.1 hx with hx1 | hx1
      · subst hx1
        exact List.length_eq_zero.1 (by omega)
      · exact hpre x hx1

theorem selectLoop_offers_irrelevant {σ : Type} (env : Env σ) (s : Scheduler)
    (config : Option TaskConfig) :
    ∀ (fuel round : Nat) (o1 o2 : List Offer),
      selectLoop env s config fuel round o1 = selectLoop env s config fuel round o2 := by
  intro fuel
  induction fuel with
  | zero => intro round o1 o2; rfl
  | succ n ih =>
    intro round o1 o2
    unfold selectLoop
    cases applyFilters env s config (env.timer round) with
    | error e => rfl
    | ok filtered =>
      simp only
      cases env.RankAndSort filtered with
      | nil => simp only [selectAgent]; exact ih _ _ _
      | cons c rest => rfl

/-- The agent chosen by the loop of `LaunchTasks` is, in the round that chose
it, the first ranked candidate holding an offer, and the chosen offers are its
offers. -/
theorem selectLoop_chosen {σ : Type} (env : Env σ) (s : Scheduler) (config : Option TaskConfig) :
    ∀ (fuel round : Nat) (offers0 offers : List Offer) (a : Agent),
      selectLoop env s config fuel round offers0 = .chosen a offers →
      offers = a.getOffers ∧ a.getOffers ≠ [] ∧
      ∃ r filtered pre post, applyFilters env s config (env.timer r) = .ok filtered ∧
        env.RankAndSort filtered = pre ++ a :: post ∧ ∀ c ∈ pre, c.getOffers = [] := by
  intro fuel
  induction fuel with
  | zero => intro round offers0 offers a h; simp [selectLoop] at h
  | succ n ih =>
    intro round offers0 offers a h
    unfold selectLoop at h
    cases hf : applyFilters env s config (env.timer round) with
    | error e => simp [hf] at h
    | ok filtered =>
      simp only [hf] at h
      cases hs : selectAgent (env.RankAndSort filtered) offers0 with
      | mk chosen offers1 =>
        cases chosen with
        | none =>
          simp only [hs] at h
          exact ih _ _ _ _ h
        | some b =>
          simp only [hs, Selection.chosen.injEq] at h
          obtain ⟨h1, h2⟩ := h
          subst h1; subst h2
          obtain ⟨e1, e2, pre, post, he, hpre⟩ := selectAgent_some _ _ _ _ hs
          exact ⟨e1, e2, round, filtered, pre, post, hf, he, hpre⟩

/-- C10: in a round of the loop of `LaunchTasks` whose filter step succeeded,
if some ranked candidate holds an offer then the loop chooses the first ranked
candidate holding one (every earlier candidate holds none) together with
exactly that agent's offers; if no candidate holds an offer then no agent is
chosen and the loop goes to its next round; and whenever the loop chose agent
`a` with offers `offers`, these are the offers of `a`, and `LaunchTasks`
reserves and launches on exactly them. -/
theorem select_first_candidate {σ : Type} (env : Env σ) (s : Scheduler) (db : σ) (t0 : Task)
    (rest : List Task) (fuel round : Nat) (offers0 : List Offer) (filtered : List Agent)
    (hf : applyFilters env s t0.cfg (env.timer round) = .ok filtered) :
    ((∃ c ∈ env.RankAndSort filtered, c.getOffers ≠ []) →
      ∃ pre a post, env.RankAndSort filtered = pre ++ a :: post ∧
        (∀ c ∈ pre, c.getOffers = []) ∧ a.getOffers ≠ [] ∧
        selectLoop env s t0.cfg (fuel + 1) round offers0 = .chosen a a.getOffers) ∧
    ((∀ c ∈ env.RankAndSort filtered, c.getOffers = []) →
      (selectAgent (env.RankAndSort filtered) offers0).1 = none ∧
      selectLoop env s t0.cfg (fuel + 1) round offers0
        = selectLoop env s t0.cfg fuel (round + 1) offers0) ∧
    (∀ (fuel1 : Nat) (a : Agent) (offers : List Offer),
      selectLoop env s t0.cfg fuel1 0 [] = .chosen a offers →
      offers = a.getOffers ∧
      LaunchTasks env fuel1 s db (t0 :: rest)
        = launch env (s.reserve a a.getOffers (t0 :: rest)) db a.getOffers (t0 :: rest)) := by
  refine ⟨?_, ?_, ?_⟩
  · intro h
    obtain ⟨pre, a, post, he, hpre, ha⟩ := exists_first_with_offers _ h
    refine ⟨pre, a, post, he, hpre, ha, ?_⟩
    unfold selectLoop
    simp only [hf, he, selectAgent_first pre a post offers0 hpre ha]
  · intro h
    have hn := selectAgent_none _ offers0 h
    refine ⟨hn, ?_⟩
    conv => lhs; unfold selectLoop
    simp only [hf]
    cases hs : selectAgent (env.RankAndSort filtered) offers0 with
    | mk chosen offers1 =>
      rw [hs] at hn
      simp only at hn
      subst hn
      exact selectLoop_offers_irrelevant env s t0.cfg fuel (round + 1) offers1 offers0
  · intro fuel1 a offers h
    obtain ⟨e1, _⟩ := selectLoop_chosen env s t0.cfg fuel1 0 [] offers a h
    subst e1
    exact ⟨rfl, launchTasks_chosen env fuel1 s db t0 rest a _ h⟩

/-- C10 on a registry whose first ranked agent holds no offer and whose second
holds `offerO1`: the second agent is chosen. -/
theorem select_first_candidate_witness :
    (applyFilters runningEnv twoCandidateRegistry taskT1.cfg (runningEnv.timer 0)
        = .ok [busyAgent, offeringAgent] ∧
      ∃ c ∈ runningEnv.RankAndSort [busyAgent, offeringAgent], c.getOffers ≠ []) ∧
    ∃ pre a post, runningEnv.RankAndSort [busyAgent, offeringAgent] = pre ++ a :: post ∧
      (∀ c ∈ pre, c.getOffers = []) ∧ a.getOffers ≠ [] ∧
      selectLoop runningEnv twoCandidateRegistry taskT1.cfg (0 + 1) 0 [] = .chosen a a.getOffers :=
  ⟨⟨rfl, by decide⟩,
    (select_first_candidate runningEnv twoCandidateRegistry storedTasks taskT1 [] 0 0 []
      [busyAgent, offeringAgent] rfl).1 (by decide)⟩


/-! ## C11: the reserve step -/

theorem addTask_tasks_get (a : Agent) (t : Task) (k : String) :
    (a.addTask t).tasks.get k = if t.taskId = k then some t else a.tasks.get k := by
  simp [Agent.addTask, SMap.get_set]

theorem addTasks_holds (tasks : List Task) :
    ∀ a : Agent,
      (∀ k, (a.tasks.get k).isSome = true →
        ((tasks.foldl (fun a t => a.addTask t) a).tasks.get k).isSome = true) ∧
      (∀ t ∈ tasks, ((tasks.foldl (fun a t => a.addTask t) a).tasks.get t.taskId).isSome = true) := by
  induction tasks with
  | nil => intro a; exact ⟨fun k h => h, fun t ht => by simp at ht⟩
  | cons u rest ih =>
    intro a
    obtain ⟨hkeep, hall⟩ := ih (a.addTask u)
    simp only [List.foldl_cons]
    constructor
    · intro k hk
      apply hkeep
      rw [addTask_tasks_get]
      by_cases h : u.taskId = k <;> simp [h, hk]
    · intro t ht
      rcases List.mem_cons.1 ht with h | h
      · subst h
        apply hkeep
        rw [addTask_tasks_get]
        simp
      · exact hall t h

theorem getAgent_attachTasks (A : Agent) (tasks : List Task) :
    ∀ (s : Scheduler) (a0 : Agent), s.getAgent A.id = some a0 →
      (tasks.foldl (fun s task => s.attachTask A task) s).getAgent A.id
        = some (tasks.foldl (fun a t => a.addTask t) a0) := by
  induction tasks with
  | nil => intro s a0 h; exact h
  | cons u rest ih =>
    intro s a0 h
    simp only [List.foldl_cons]
    apply ih
    simp [Scheduler.attachTask, h, getAgent_writeAgent]

/-- An agent that holds a task survives `Scheduler.removeOffer` and keeps its
tasks. -/
theorem removeOffer_keeps_busy_agent (s : Scheduler) (x : Offer) (k : String) (a : Agent)
    (ha : s.getAgent k = some a) (hb : a.tasks ≠ []) :
    ∃ a1, (s.removeOffer x).2.getAgent k = some a1 ∧ a1.tasks = a.tasks := by
  by_cases hk : x.agentId = k
  · subst hk
    rw [getAgent_removeOffer s x a ha]
    have hne : (a.removeOffer x.id).2.empty = false := by
      cases he : (a.removeOffer x.id).2.empty with
      | false => rfl
      | true =>
        have := ((empty_iff _).1 he).2
        rw [(removeOffer_fields a x.id).1] at this
        exact absurd this hb
    simp only [if_true, hne, Bool.false_eq_true, if_false]
    exact ⟨_, rfl, (removeOffer_fields a x.id).1⟩
  · cases hx : s.getAgent x.agentId with
    | none =>
      rw [getAgent_removeOffer_none s x hx]
      exact ⟨a, ha, rfl⟩
    | some b =>
      rw [getAgent_removeOffer s x b hx]
      simp only [hk, if_false]
      exact ⟨a, ha, rfl⟩

theorem removeOffers_keep_busy_agent (offers : List Offer) (k : String) :
    ∀ (s : Scheduler) (a : Agent), s.getAgent k = some a → a.tasks ≠ [] →
      ∃ a1, (offers.foldl (fun s offer => (s.removeOffer offer).2) s).getAgent k = some a1 ∧
        a1.tasks = a.tasks := by
  induction offers with
  | nil => intro s a ha _; exact ⟨a, ha, rfl⟩
  | cons x rest ih =>
    intro s a ha hb
    obtain ⟨a1, h1, h2⟩ := removeOffer_keeps_busy_agent s x k a ha hb
    obtain ⟨a2, h3, h4⟩ := ih _ a1 h1 (h2 ▸ hb)
    exact ⟨a2, h3, h4.trans h2⟩

/-- C11: for a non-empty batch and a chosen agent `A` registered in a
well-placed registry, after the reserve step on the offers `S`, `A` is still in
the registry, it holds a task handle for every task id of the batch, and no
offer of `S` is stored on any agent of the registry. -/
theorem reserve_step (s : Scheduler) (A : Agent) (S : List Offer) (t0 : Task)
    (rest : List Task) (hreg : s.getAgent A.id = some A) (hwp : WellPlaced s) :
    (∃ a1, (s.reserve A S (t0 :: rest)).getAgent A.id = some a1 ∧
      ∀ t ∈ t0 :: rest, (a1.getTask t.taskId).isSome = true) ∧
    (∀ o ∈ S, ∀ k i, (s.reserve A S (t0 :: rest)).offerAt k i ≠ some o) := by
  refine ⟨?_, reserve_absent hwp A S (t0 :: rest)⟩
  have h1 := getAgent_attachTasks A (t0 :: rest) s A hreg
  have h2 := (addTasks_holds (t0 :: rest) A).2
  have hne : ((t0 :: rest).foldl (fun a t => a.addTask t) A).tasks ≠ [] := by
    intro hnil
    have := h2 t0 (List.mem_cons_self _ _)
    rw [hnil] at this
    simp [SMap.get] at this
  obtain ⟨a1, h3, h4⟩ := removeOffers_keep_busy_agent S A.id _ _ h1 hne
  refine ⟨a1, h3, ?_⟩
  intro t ht
  unfold Agent.getTask
  rw [h4]
  exact h2 t ht

/-- C11 on the registry holding `offerO1` and a batch of three tasks. -/
theorem reserve_step_witness :
    (oneOfferRegistry.getAgent offeringAgent.id = some offeringAgent ∧
      WellPlaced oneOfferRegistry) ∧
    ∀ o ∈ [offerO1], ∀ k i,
      (oneOfferRegistry.reserve offeringAgent [offerO1] [taskT1, taskT2, taskT3]).offerAt k i
        ≠ some o :=
  ⟨⟨by decide, by unfold KeysMatch; decide, by unfold OffersPlaced; decide⟩,
    (reserve_step oneOfferRegistry offeringAgent [offerO1] taskT1 [taskT2, taskT3]
      (by decide) ⟨by unfold KeysMatch; decide, by unfold OffersPlaced; decide⟩).2⟩

/-! ## C12: paced reconciliation -/

theorem collectTasks_outer (db : Inventory) :
    ∀ (apps : List App) (tasks : List StoreTask), collectTasks db apps tasks = tasks := by
  intro apps
  induction apps with
  | nil => intro tasks; rfl
  | cons app rest ih =>
    intro tasks
    unfold collectTasks
    cases db.ListTasks app.ID with
    | error e => exact ih tasks
    | ok inner => exact ih tasks

/-- A tick of the paced reconciliation sends no RECONCILE call, whatever the
store holds. -/
theorem reconcileTick_sends_nothing (send : Call → Except String Nat) (s : Scheduler)
    (db : Inventory) (step : Nat) : reconcileTick send s db step = [] := by
  unfold reconcileTick
  cases db.ListApps with
  | error e => rfl
  | ok apps => simp [collectTasks_outer, paceLoop]

/-- The batching loop of the paced reconciliation, run on a list of tasks with
`total` their number and a step of at least one: every task is carried, in
order, by exactly one call, and no call carries more than `step` pairs. -/
theorem paceLoop_batches (send : Call → Except String Nat) (s : Scheduler) (step total : Nat)
    (hstep : 1 ≤ step) :
    ∀ (rest : List StoreTask) (m : List (String × String)) (sent : Nat),
      sent + m.length + rest.length = total →
      (m = [] ∨ (m.length < step ∧ m.length + sent < total)) →
      ((paceLoop send s step total rest m sent).flatMap Call.reconcilePairs
          = m ++ rest.map (fun task => (task.ID, task.AgentId))) ∧
      ∀ c ∈ paceLoop send s step total rest m sent, c.reconcilePairs.length ≤ step := by
  intro rest
  induction rest with
  | nil =>
    intro m sent htot hm
    rcases hm with hm | hm
    · subst hm; simp [paceLoop]
    · simp only [List.length_nil, Nat.add_zero] at htot
      omega
  | cons task rest ih =>
    intro m sent htot hm
    have hlen : m.length < step := by
      rcases hm with hm | hm
      · subst hm; simpa using hstep
      · exact hm.1
    simp only [List.length_cons] at htot
    unfold paceLoop
    by_cases hflush : (m ++ [(task.ID, task.AgentId)]).length ≥ step ∨
        (m ++ [(task.ID, task.AgentId)]).length + sent ≥ total
    · simp only [hflush, if_true]
      have hcall : (reconcileTasks send s (m ++ [(task.ID, task.AgentId)])).1.reconcilePairs
          = m ++ [(task.ID, task.AgentId)] := by
        unfold reconcileTasks
        simp only
        split
        · rfl
        · split <;> rfl
      obtain ⟨h1, h2⟩ := ih [] (sent + (m ++ [(task.ID, task.AgentId)]).length)
        (by simp only [List.length_append, List.length_cons, List.length_nil]; omega)
        (Or.inl rfl)
      constructor
      · simp only [List.flatMap_cons, hcall, h1]
        simp
      · intro c hc
        rcases List.mem_cons.1 hc with h | h
        · subst h
          rw [hcall]
          simp only [List.length_append, List.length_cons, List.length_nil]
          omega
        · exact h2 c h
    · simp only [hflush, if_false]
      simp only [List.length_append, List.length_cons, List.length_nil, ge_iff_le, not_or,
        not_le] at hflush
      obtain ⟨h1, h2⟩ := ih (m ++ [(task.ID, task.AgentId)]) sent
        (by simp only [List.length_append, List.length_cons, List.length_nil]; omega)
        (Or.inr ⟨by simpa using hflush.1, by simpa using hflush.2⟩)
      exact ⟨by simpa using h1, h2⟩

/-- C12 evaluated on the code: with a store holding the application `app` and
its task `t1` on agent `a1`, both listings succeeding, a tick of the paced
reconciliation with step 100 sends no RECONCILE call, so `t1` is in none,
while the one-shot `reconcile` sends the pair of `t1`. -/
theorem reconcile_tick_sends_no_call :
    oneTaskInventory.ListApps = .ok [⟨"app"⟩] ∧
    oneTaskInventory.ListTasks "app" = .ok [⟨"t1", "a1", "h1", 31000⟩] ∧
    reconcileTick (fun _ => .ok 202) emptyRegistry oneTaskInventory 100 = [] ∧
    reconcile (fun _ => .ok 202) emptyRegistry oneTaskInventory
      = [Call.reconcile none [("t1", "a1")]] :=
  ⟨rfl, rfl, by decide, by decide⟩

/-! ## C13: routing in `handleEvent` -/

/-- C13: with the handler table of `init`, for every UPDATE event `handleEvent`
appends the event once to the update queue and leaves the offers queue alone;
it appends a handle to the failed-tasks queue exactly when the state is
TASK_FAILED and the status's agent is registered and holds a handle for the
status's task id, the appended handle being that one, and otherwise leaves
that queue as it was; and for every OFFERS event it appends the event once to
the offers queue and changes nothing else. -/
theorem handleEvent_routing (s : Scheduler) (q : Dispatch) (status : TaskStatus) :
    (handleEvent initHandlers s q (.update status)).events = q.events ++ [.update status] ∧
    (handleEvent initHandlers s q (.update status)).offers = q.offers ∧
    ((∃ t, (handleEvent initHandlers s q (.update status)).failedTasks = q.failedTasks ++ [t]) ↔
      (status.state = .TASK_FAILED ∧
        ∃ a, s.getAgent status.agentId = some a ∧ (a.getTask status.taskId).isSome = true)) ∧
    (∀ a t, status.state = .TASK_FAILED → s.getAgent status.agentId = some a →
      a.getTask status.taskId = some t →
      (handleEvent initHandlers s q (.update status)).failedTasks = q.failedTasks ++ [t]) ∧
    (¬ (status.state = .TASK_FAILED ∧
        ∃ a, s.getAgent status.agentId = some a ∧ (a.getTask status.taskId).isSome = true) →
      (handleEvent initHandlers s q (.update status)).failedTasks = q.failedTasks) ∧
    (∀ offers, handleEvent initHandlers s q (.offers offers)
      = { q with offers := q.offers ++ [.offers offers] }) := by
  have hU : Event.GetType (.update status) ∈ initHandlers := by
    simp [Event.GetType, initHandlers]
  have hfail : ∀ a t, status.state = .TASK_FAILED → s.getAgent status.agentId = some a →
      a.getTask status.taskId = some t →
      (handleEvent initHandlers s q (.update status)).failedTasks = q.failedTasks ++ [t] := by
    intro a t hs ha ht
    simp [handleEvent, hU, hs, ha, ht]
  have hkeep : ¬ (status.state = .TASK_FAILED ∧
        ∃ a, s.getAgent status.agentId = some a ∧ (a.getTask status.taskId).isSome = true) →
      (handleEvent initHandlers s q (.update status)).failedTasks = q.failedTasks := by
    intro hn
    by_cases hs : status.state = .TASK_FAILED
    · cases ha : s.getAgent status.agentId with
      | none => simp [handleEvent, hU, hs, ha]
      | some a =>
        cases ht : a.getTask status.taskId with
        | none => simp [handleEvent, hU, hs, ha, ht]
        | some t => exact absurd ⟨hs, a, ha, by simp [ht]⟩ hn
    · cases ha : s.getAgent status.agentId with
      | none => simp [handleEvent, hU, hs, ha]
      | some a =>
        cases ht : a.getTask status.taskId with
        | none => simp [handleEvent, hU, hs, ha, ht]
        | some t => simp [handleEvent, hU, hs, ha, ht]
  refine ⟨?_, ?_, ?_, hfail, hkeep, ?_⟩
  · cases ha : s.getAgent status.agentId with
    | none => by_cases hs : status.state = .TASK_FAILED <;> simp [handleEvent, hU, hs, ha]
    | some a =>
      cases ht : a.getTask status.taskId <;>
        by_cases hs : status.state = .TASK_FAILED <;> simp [handleEvent, hU, hs, ha, ht]
  · cases ha : s.getAgent status.agentId with
    | none => by_cases hs : status.state = .TASK_FAILED <;> simp [handleEvent, hU, hs, ha]
    | some a =>
      cases ht : a.getTask status.taskId <;>
        by_cases hs : status.state = .TASK_FAILED <;> simp [handleEvent, hU, hs, ha, ht]
  · constructor
    · intro ⟨t, ht⟩
      by_contra hn
      rw [hkeep hn] at ht
      have := congrArg List.length ht
      simp at this
    · intro ⟨hs, a, ha, ht⟩
      cases hg : a.getTask status.taskId with
      | none => simp [hg] at ht
      | some t => exact ⟨t, hfail a t hs ha hg⟩
  · intro offers
    have hO : Event.GetType (.offers offers) ∈ initHandlers := by
      simp [Event.GetType, initHandlers]
    simp [handleEvent, hO]

/-- C13 on a failed status of `t1`, whose handle agent `a1` holds: the handle is
queued for relaunch. -/
theorem handleEvent_routing_witness :
    ((statusOf "t1" .TASK_FAILED).state = .TASK_FAILED ∧
      launchedRegistry.getAgent (statusOf "t1" .TASK_FAILED).agentId
        = some ⟨"a1", "h1", [], [("t1", taskT1)]⟩ ∧
      Agent.getTask ⟨"a1", "h1", [], [("t1", taskT1)]⟩ (statusOf "t1" .TASK_FAILED).taskId
        = some taskT1) ∧
    (handleEvent initHandlers launchedRegistry noDispatch
      (.update (statusOf "t1" .TASK_FAILED))).failedTasks = noDispatch.failedTasks ++ [taskT1] :=
  ⟨⟨by decide, by decide, by decide⟩,
    (handleEvent_routing launchedRegistry noDispatch (statusOf "t1" .TASK_FAILED)).2.2.2.1
      ⟨"a1", "h1", [], [("t1", taskT1)]⟩ taskT1 (by decide) (by decide) (by decide)⟩

/-! ## C14: acknowledgement -/

/-- C14: for a status with a uuid, `AckUpdateEvent` sends exactly one call, the
ACKNOWLEDGE carrying the scheduler's framework id and the agent id, task id and
uuid of the status; for a status without uuid it sends no call and returns
nil; it returns an error exactly when the call was sent and the send failed or
the response code was not 202. -/
theorem ackUpdateEvent_spec (send : Call → Except String Nat) (s : Scheduler)
    (status : TaskStatus) :
    (∀ u, status.uuid = some u →
      (AckUpdateEvent send s status).1
        = [Call.acknowledge s.frameworkId status.agentId status.taskId u]) ∧
    (status.uuid = none → AckUpdateEvent send s status = ([], none)) ∧
    ((AckUpdateEvent send s status).2.isSome = true ↔
      ∃ u, status.uuid = some u ∧
        ((∃ e, send (Call.acknowledge s.frameworkId status.agentId status.taskId u) = .error e) ∨
         (∃ code, send (Call.acknowledge s.frameworkId status.agentId status.taskId u)
            = .ok code ∧ code ≠ StatusAccepted))) := by
  unfold AckUpdateEvent
  cases hu : status.uuid with
  | none => simp
  | some u =>
    simp only
    cases hs : send (Call.acknowledge s.frameworkId status.agentId status.taskId u) with
    | error e => simp [hs]
    | ok code =>
      by_cases hc : code = StatusAccepted
      · simp [hs, hc]
      · simp [hs, hc]

/-- C14 on a status carrying the uuid `u1`, the call being answered 202. -/
theorem ackUpdateEvent_spec_witness :
    ({ statusOf "t1" .TASK_RUNNING with uuid := some "u1" } : TaskStatus).uuid = some "u1" ∧
    (AckUpdateEvent (fun _ => .ok 202) launchedRegistry
      { statusOf "t1" .TASK_RUNNING with uuid := some "u1" }).1
      = [Call.acknowledge (some "fw") "a1" "t1" "u1"] :=
  ⟨rfl, (ackUpdateEvent_spec (fun _ => .ok 202) launchedRegistry
      { statusOf "t1" .TASK_RUNNING with uuid := some "u1" }).1 "u1" rfl⟩

/-! ## C15: framework-id staleness -/

theorem wrap64_eq (x : Int) (h1 : -(2 ^ 63) ≤ x) (h2 : x < 2 ^ 63) : wrap64 x = x := by
  unfold wrap64
  omega

/-- C15, as stated, fails at the boundary: with a persisted id written at time
0 and read when its age equals the failover timeout, the age does not exceed
the timeout, yet the SUBSCRIBE call carries no framework id. -/
theorem init_boundary_drops_id :
    (("fw" : String) ≠ "" ∧ (604800 : Int) - 0 / 1000 ≤ 604800) ∧
    ∃ s, NewScheduler (.ok ⟨"m1", "c"⟩) ("fw", 0) 604800 604800 = .ok s ∧
      s.subscribeCall = Call.subscribe none :=
  ⟨⟨by decide, by decide⟩, emptyRegistry, rfl, rfl⟩

/-- C15 (amended): for a master state with a leader, a persisted framework id,
a write time `mtime` in milliseconds and a current time `now` in seconds, both
non-negative 64-bit values, initialisation succeeds and the SUBSCRIBE call
carries the persisted id if the id is non-empty and its age `now - mtime/1000`
is below the failover timeout, and carries no framework id if the id is empty
or its age reaches or exceeds the failover timeout. -/
theorem init_framework_staleness (state : MesosState) (id : String)
    (mtime now timeout : Int) (hl : state.Leader ≠ "")
    (hm : 0 ≤ mtime ∧ mtime < 2 ^ 63) (hn : 0 ≤ now ∧ now < 2 ^ 63) :
    ∃ s, NewScheduler (.ok state) (id, mtime) now timeout = .ok s ∧
      ((id ≠ "" ∧ now - mtime / 1000 < timeout) → s.subscribeCall = Call.subscribe (some id)) ∧
      ((id = "" ∨ timeout ≤ now - mtime / 1000) → s.subscribeCall = Call.subscribe none) := by
  have hdiv : Int.tdiv mtime 1000 = mtime / 1000 :=
    Int.tdiv_eq_ediv hm.1 (by decide)
  have hage : wrap64 (now - Int.tdiv mtime 1000) = now - mtime / 1000 := by
    rw [hdiv]
    apply wrap64_eq <;> omega
  unfold NewScheduler Scheduler.init
  simp only [hl, if_false, hage]
  by_cases hid : id = ""
  · subst hid
    refine ⟨emptyRegistry, by simp, ?_, fun _ => rfl⟩
    intro h
    exact absurd rfl h.1
  · by_cases hstale : timeout ≤ now - mtime / 1000
    · refine ⟨emptyRegistry, by simp [hid, hstale], ?_, fun _ => rfl⟩
      intro h
      omega
    · refine ⟨{ emptyRegistry with frameworkId := some id }, by simp [hid, hstale],
        fun _ => rfl, ?_⟩
      intro h
      rcases h with h | h
      · exact absurd h hid
      · exact absurd h hstale

/-- C15 on an id written one second before the failover timeout elapsed. -/
theorem init_framework_staleness_witness :
    ((⟨"m1", "c"⟩ : MesosState).Leader ≠ "" ∧ ((0 : Int) ≤ 1000 ∧ (1000 : Int) < 2 ^ 63) ∧
      ((0 : Int) ≤ 604800 ∧ (604800 : Int) < 2 ^ 63)) ∧
    ∃ s, NewScheduler (.ok ⟨"m1", "c"⟩) ("fw", 1000) 604800 604800 = .ok s ∧
      ((("fw" : String) ≠ "" ∧ (604800 : Int) - 1000 / 1000 < 604800) →
        s.subscribeCall = Call.subscribe (some "fw")) ∧
      ((("fw" : String) = "" ∨ (604800 : Int) ≤ 604800 - 1000 / 1000) →
        s.subscribeCall = Call.subscribe none) :=
  ⟨⟨by decide, ⟨by decide, by decide⟩, ⟨by decide, by decide⟩⟩,
    init_framework_staleness ⟨"m1", "c"⟩ "fw" 1000 604800 604800 (by decide)
      ⟨by decide, by decide⟩ ⟨by decide, by decide⟩⟩

/-! ## C16: reconnect -/

theorem connect_ok (send : Call → Except String Nat) (s s1 : Scheduler)
    (h : s.connect send = .ok s1) :
    s1 = { s with status := statusConnected } ∧ send s.subscribeCall = .ok 200 := by
  unfold Scheduler.connect at h
  cases hs : send s.subscribeCall with
  | error e => simp [hs] at h
  | ok code =>
    by_cases hc : code = 200
    · subst hc
      simp [hs] at h
      exact ⟨h.symm, rfl⟩
    · simp [hs, hc] at h

theorem connect_of_accepted (send : Call → Except String Nat) (s : Scheduler)
    (h : send s.subscribeCall = .ok 200) :
    s.connect send = .ok { s with status := statusConnected } := by
  simp [Scheduler.connect, h]

theorem reconnectLoop_some (send : Nat → Call → Except String Nat) (s : Scheduler) :
    ∀ (fuel attempt : Nat) (s1 : Scheduler), reconnectLoop send s fuel attempt = some s1 →
      s1 = { s with status := statusConnected } := by
  intro fuel
  induction fuel with
  | zero => intro attempt s1 h; simp [reconnectLoop] at h
  | succ n ih =>
    intro attempt s1 h
    unfold reconnectLoop at h
    cases hc : s.connect (send attempt) with
    | ok s2 =>
      simp only [hc, Option.some.injEq] at h
      subst h
      exact (connect_ok _ _ _ hc).1
    | error e =>
      simp only [hc] at h
      exact ih _ _ h

theorem reconnectLoop_completes (send : Nat → Call → Except String Nat) (s : Scheduler)
    (n : Nat) (hn : send n s.subscribeCall = .ok 200) :
    ∀ (fuel attempt : Nat), attempt ≤ n → n < attempt + fuel →
      ∃ s1, reconnectLoop send s fuel attempt = some s1 := by
  intro fuel
  induction fuel with
  | zero => intro attempt h1 h2; omega
  | succ k ih =>
    intro attempt h1 h2
    unfold reconnectLoop
    cases hc : s.connect (send attempt) with
    | ok s2 => exact ⟨s2, rfl⟩
    | error e =>
      simp only
      by_cases he : attempt = n
      · subst he
        rw [connect_of_accepted _ _ hn] at hc
        cases hc
      · exact ih (attempt + 1) (by omega) (by omega)

/-- C16, as stated, fails on the registry: reconnecting the scheduler whose
registry holds agent `a1` with offer `o1`, the SUBSCRIBE being accepted with
status 200, ends connected with `a1` and `o1` still in the registry. -/
theorem reconnect_keeps_old_offers :
    ∃ s1, oneOfferRegistry.reconnect (fun _ _ => .ok 200) 1 = some s1 ∧
      s1.status = statusConnected ∧ s1.offerAt "a1" "o1" = some offerO1 ∧
      s1.agents ≠ [] :=
  ⟨{ oneOfferRegistry with status := statusConnected }, by decide, by decide, by decide,
    by decide⟩

/-- C16 (amended): once `reconnect` has completed, the connection status is
connected and the agent map, with every agent's offers and tasks, and the
framework id are as they were before; and `reconnect` completes as soon as a
SUBSCRIBE call is accepted with status 200. -/
theorem reconnect_connected_registry_kept (send : Nat → Call → Except String Nat)
    (s : Scheduler) (fuel : Nat) :
    (∀ s1, s.reconnect send fuel = some s1 →
      s1.status = statusConnected ∧ s1.agents = s.agents ∧ s1.frameworkId = s.frameworkId) ∧
    (∀ n, n < fuel → send n s.subscribeCall = .ok 200 →
      ∃ s1, s.reconnect send fuel = some s1) := by
  constructor
  · intro s1 h
    have := reconnectLoop_some send _ fuel 0 s1 h
    subst this
    exact ⟨rfl, rfl, rfl⟩
  · intro n hn hacc
    exact reconnectLoop_completes send { s with status := statusConnecting } n hacc fuel 0
      (Nat.zero_le _) (by omega)

/-- C16 on a reconnect whose first SUBSCRIBE is refused and whose second is
accepted. -/
theorem reconnect_connected_registry_kept_witness :
    (1 < 3 ∧ (fun (n : Nat) (_ : Call) => if n = 0 then Except.error "refused" else
        (Except.ok 200 : Except String Nat)) 1 oneOfferRegistry.subscribeCall = .ok 200) ∧
    ∃ s1, oneOfferRegistry.reconnect
      (fun n _ => if n = 0 then .error "refused" else .ok 200) 3 = some s1 :=
  ⟨⟨by decide, rfl⟩,
    (reconnect_connected_registry_kept
      (fun n _ => if n = 0 then .error "refused" else .ok 200) oneOfferRegistry 3).2 1
      (by decide) rfl⟩

/-! ## C17: synchronous kill -/

theorem awaitDone_some (p : TaskStatus → Bool) :
    ∀ (l : List TaskStatus) (r : Nat × TaskStatus), awaitDone p l = some r →
      ∃ n, r.1 = n + 1 ∧ l[n]? = some r.2 ∧ p r.2 = true ∧
        ∀ m st, m < n → l[m]? = some st → p st = false := by
  intro l
  induction l with
  | nil => intro r h; simp [awaitDone] at h
  | cons st rest ih =>
    intro r h
    unfold awaitDone at h
    by_cases hp : p st = true
    · simp only [hp, if_true, Option.some.injEq] at h
      subst h
      exact ⟨0, rfl, List.getElem?_cons_zero, hp,
        fun m st1 hm _ => absurd hm (Nat.not_lt_zero m)⟩
    · simp only [hp] at h
      cases hr : awaitDone p rest with
      | none => simp [hr] at h
      | some r1 =>
        simp only [hr, Bool.false_eq_true, if_false, Option.some.injEq] at h
        subst h
        obtain ⟨n, h1, h2, h3, h4⟩ := ih r1 hr
        refine ⟨n + 1, by simp [h1], by simpa using h2, h3, ?_⟩
        intro m st1 hm hst
        cases m with
        | zero =>
          simp only [List.getElem?_cons_zero, Option.some.injEq] at hst
          subst hst
          simpa using hp
        | succ m =>
          simp only [List.getElem?_cons_succ] at hst
          exact h4 m st1 (by omega) hst

theorem awaitDone_none (p : TaskStatus → Bool) :
    ∀ l : List TaskStatus, awaitDone p l = none → ∀ st ∈ l, p st = false := by
  intro l
  induction l with
  | nil => intro _ st hst; simp at hst
  | cons st rest ih =>
    intro h st1 hst1
    unfold awaitDone at h
    by_cases hp : p st = true
    · simp [hp] at h
    · simp only [hp, Bool.false_eq_true, if_false] at h
      cases hr : awaitDone p rest with
      | some r1 => simp [hr] at h
      | none =>
        rcases List.mem_cons.1 hst1 with h1 | h1
        · subst h1; simpa using hp
        · exact ih hr st1 h1

theorem removeTask_getTask (a : Agent) (taskId : String) :
    (a.removeTask taskId).getTask taskId = none := by
  unfold Agent.removeTask Agent.getTask
  cases h : a.tasks.get taskId with
  | none => simpa using h
  | some t => simp [SMap.get_del]

theorem dropTask_getTask (s : Scheduler) (agentId taskId : String) (a : Agent)
    (h : (s.dropTask agentId taskId).getAgent agentId = some a) :
    a.getTask taskId = none := by
  unfold Scheduler.dropTask at h
  cases ha : s.getAgent agentId with
  | none => simp [ha] at h
  | some b =>
    simp only [ha, getAgent_writeAgent, if_true, Option.some.injEq] at h
    subst h
    exact removeTask_getTask b taskId

theorem awaitDone_isSome (p : TaskStatus → Bool) (l : List TaskStatus)
    (h : ∃ st ∈ l, p st = true) : ∃ r, awaitDone p l = some r := by
  cases hr : awaitDone p l with
  | some r => exact ⟨r, rfl⟩
  | none =>
    obtain ⟨st, hst, hp⟩ := h
    have := awaitDone_none p l hr st hst
    rw [this] at hp
    cases hp

/-- C17: `KillTask(id, agent, sync=true)` whose KILL call was answered 202
returns nil exactly when a killed status is among the statuses delivered to the
handle, and is blocked on the channel otherwise; when it returns, it has
consumed the statuses up to and including the first killed one, every status
consumed before being non-killed, and the agent, if registered, holds no
handle for the task id; and when the call fails to send or is answered with a
code other than 202, `KillTask` returns an error. -/
theorem killTask_sync (send : Call → Except String Nat) (isKilled : TaskStatus → Bool)
    (statuses : List TaskStatus) (s : Scheduler) (taskId agentId : String) :
    (send (Call.kill s.frameworkId taskId agentId) = .ok StatusAccepted →
      ((KillTask send isKilled statuses s taskId agentId true).ending = .returned ↔
        ∃ st ∈ statuses, isKilled st = true) ∧
      ((KillTask send isKilled statuses s taskId agentId true).ending = .returned →
        ∃ n st, statuses[n]? = some st ∧ isKilled st = true ∧
          (∀ m st1, m < n → statuses[m]? = some st1 → isKilled st1 = false) ∧
          (KillTask send isKilled statuses s taskId agentId true).consumed = n + 1 ∧
          ∀ a, (KillTask send isKilled statuses s taskId agentId true).sched.getAgent agentId
            = some a → a.getTask taskId = none) ∧
      ((∀ st ∈ statuses, isKilled st = false) →
        (KillTask send isKilled statuses s taskId agentId true).ending = .waiting)) ∧
    (((∃ e, send (Call.kill s.frameworkId taskId agentId) = .error e) ∨
      (∃ code, send (Call.kill s.frameworkId taskId agentId) = .ok code ∧
        code ≠ StatusAccepted)) →
      ∃ err, (KillTask send isKilled statuses s taskId agentId true).ending = .failed err) := by
  constructor
  · intro hacc
    cases hr : awaitDone isKilled statuses with
    | none =>
      have hnone := awaitDone_none isKilled statuses hr
      have hend : (KillTask send isKilled statuses s taskId agentId true).ending = .waiting := by
        simp [KillTask, hacc, hr]
      refine ⟨?_, ?_, fun _ => hend⟩
      · constructor
        · intro h
          rw [hend] at h
          cases h
        · intro ⟨st, hst, hp⟩
          rw [hnone st hst] at hp
          cases hp
      · intro h
        rw [hend] at h
        cases h
    | some r =>
      obtain ⟨n, h1, h2, h3, h4⟩ := awaitDone_some isKilled statuses r hr
      have hend : (KillTask send isKilled statuses s taskId agentId true).ending = .returned := by
        simp [KillTask, hacc, hr]
      refine ⟨⟨fun _ => ⟨r.2, List.getElem?_mem h2, h3⟩, fun _ => hend⟩, ?_, ?_⟩
      · intro _
        refine ⟨n, r.2, h2, h3, h4, by simp [KillTask, hacc, hr, h1], ?_⟩
        intro a ha
        have hs : (KillTask send isKilled statuses s taskId agentId true).sched
            = (if true = true then
                match s.getAgent agentId with
                | none => s
                | some a => s.writeAgent agentId (a.addTask (NewTask none taskId taskId))
              else s).dropTask agentId taskId := by
          simp [KillTask, hacc, hr]
        rw [hs] at ha
        exact dropTask_getTask _ agentId taskId a ha
      · intro hall
        rw [hall r.2 (List.getElem?_mem h2)] at h3
        cases h3
  · intro hfail
    rcases hfail with ⟨e, he⟩ | ⟨code, hc, hne⟩
    · exact ⟨e, by simp [KillTask, he]⟩
    · exact ⟨"kill call send but the status code not 202 got " ++ toString code,
        by simp [KillTask, hc, hne]⟩

/-- C17 on the kill of `t1` on `a1`, answered 202, with a killing status then a
killed status delivered. -/
theorem killTask_sync_witness :
    ((fun (_ : Call) => (Except.ok 202 : Except String Nat))
        (Call.kill launchedRegistry.frameworkId "t1" "a1") = .ok StatusAccepted ∧
      ∃ st ∈ [statusOf "t1" .TASK_KILLING, statusOf "t1" .TASK_KILLED],
        killedState st = true) ∧
    (KillTask (fun _ => .ok 202) killedState
      [statusOf "t1" .TASK_KILLING, statusOf "t1" .TASK_KILLED] launchedRegistry "t1" "a1"
      true).ending = .returned :=
  ⟨⟨rfl, statusOf "t1" .TASK_KILLED, by decide, by decide⟩,
    ((killTask_sync (fun _ => .ok 202) killedState
      [statusOf "t1" .TASK_KILLING, statusOf "t1" .TASK_KILLED] launchedRegistry "t1" "a1").1
      rfl).1.2 ⟨statusOf "t1" .TASK_KILLED, by decide, by decide⟩⟩

/-! ## C18: launch mutual exclusion -/

theorem exclusive_set_holder (stages : List Stage) (i : Nat) (st : Stage)
    (hi : i < stages.length) (hst : st.holding = true)
    (hothers : ∀ (j : Nat) (st1 : Stage), j ≠ i → stages[j]? = some st1 → st1.holding = false) :
    Exclusive ⟨1, stages.set i st⟩ := by
  refine Or.inr ⟨rfl, i, st, List.getElem?_set_self hi, hst, ?_⟩
  intro j st1 hj h
  rw [List.getElem?_set_ne (Ne.symm hj)] at h
  exact hothers j st1 hj h

theorem exclusive_set_free (stages : List Stage) (i : Nat) (st : Stage)
    (hst : st.holding = false)
    (hothers : ∀ (j : Nat) (st1 : Stage), j ≠ i → stages[j]? = some st1 → st1.holding = false) :
    Exclusive ⟨0, stages.set i st⟩ := by
  refine Or.inl ⟨rfl, ?_⟩
  intro j st1 h
  by_cases hj : j = i
  · subst hj
    rw [List.getElem?_set] at h
    simp only [if_true] at h
    split at h
    · cases h; exact hst
    · cases h
  · rw [List.getElem?_set_ne (Ne.symm hj)] at h
    exact hothers j st1 hj h

theorem exclusive_step (l : Launches) (i : Nat) (branch : Bool) (h : Exclusive l) :
    Exclusive (l.step i branch) := by
  obtain ⟨sem, stages⟩ := l
  unfold Launches.step
  cases hst : stages[i]? with
  | none => exact h
  | some st0 =>
    have hi : i < stages.length := (List.getElem?_eq_some.1 hst).1
    rcases h with ⟨hsem, hfree⟩ | ⟨hsem, k, stk, hk, hhold, hothers⟩
    · simp only at hsem hfree
      subst hsem
      have h0 := hfree i st0 hst
      have hoth : ∀ (j : Nat) (st1 : Stage), j ≠ i → stages[j]? = some st1 →
          st1.holding = false :=
        fun j st1 _ hj => hfree j st1 hj
      cases st0 with
      | waiting =>
        simp only [semCapacity, Nat.lt_one_iff, if_true, Nat.zero_add]
        exact exclusive_set_holder stages i .selecting hi rfl hoth
      | returned => exact Or.inl ⟨rfl, hfree⟩
      | selecting => simp [Stage.holding] at h0
      | reserving => simp [Stage.holding] at h0
      | sending => simp [Stage.holding] at h0
      | awaiting => simp [Stage.holding] at h0
    · simp only at hsem hk hothers
      subst hsem
      have hkeep : Exclusive ⟨1, stages⟩ := Or.inr ⟨rfl, k, stk, hk, hhold, hothers⟩
      have hik : st0.holding = true → i = k := by
        intro hh
        by_contra hne
        have := hothers i st0 hne hst
        rw [this] at hh
        cases hh
      have hoth : st0.holding = true →
          ∀ (j : Nat) (st1 : Stage), j ≠ i → stages[j]? = some st1 →
            st1.holding = false := by
        intro hh j st1 hj hj1
        have := hik hh
        subst this
        exact hothers j st1 hj hj1
      cases st0 with
      | waiting => simpa [semCapacity] using hkeep
      | returned => exact hkeep
      | selecting =>
        cases branch with
        | true => exact exclusive_set_holder stages i .reserving hi rfl (hoth rfl)
        | false =>
          simp only [Launches.unlock, Bool.false_eq_true, if_false, Nat.lt_one_iff,
            Nat.pos_of_ne_zero, Nat.one_pos, if_true, Nat.sub_self]
          exact exclusive_set_free stages i .returned rfl (hoth rfl)
      | reserving => exact exclusive_set_holder stages i .sending hi rfl (hoth rfl)
      | sending =>
        cases branch with
        | true => exact exclusive_set_holder stages i .awaiting hi rfl (hoth rfl)
        | false =>
          simp only [Launches.unlock, Bool.false_eq_true, if_false, Nat.one_pos, if_true,
            Nat.sub_self]
          exact exclusive_set_free stages i .returned rfl (hoth rfl)
      | awaiting =>
        simp only [Launches.unlock, Nat.one_pos, if_true, Nat.sub_self]
        exact exclusive_set_free stages i .returned rfl (hoth rfl)

theorem exclusive_foldl (schedule : List (Nat × Bool)) :
    ∀ l : Launches, Exclusive l →
      Exclusive (schedule.foldl (fun l e => l.step e.1 e.2) l) := by
  induction schedule with
  | nil => intro l h; exact h
  | cons e rest ih => intro l h; exact ih _ (exclusive_step l e.1 e.2 h)

theorem exclusive_start (n : Nat) : Exclusive ⟨0, List.replicate n .waiting⟩ := by
  refine Or.inl ⟨rfl, ?_⟩
  intro j st h
  have hmem := List.getElem?_mem h
  rw [List.mem_replicate] at hmem
  rw [hmem.2]
  rfl

/-- C18: for every number of concurrent `LaunchTasks` invocations and every
interleaving of their steps, the channel `s.sem` never holds more than one
element and at most one invocation is between acquiring and releasing it: two
invocations that are both in their select, reserve, send or await stage are
the same invocation. -/
theorem launch_mutual_exclusion (n : Nat) (schedule : List (Nat × Bool)) :
    (runLaunches n schedule).sem ≤ 1 ∧
    ∀ (i j : Nat) (si sj : Stage), (runLaunches n schedule).stages[i]? = some si →
      (runLaunches n schedule).stages[j]? = some sj →
      si.holding = true → sj.holding = true → i = j := by
  have h := exclusive_foldl schedule _ (exclusive_start n)
  change Exclusive (runLaunches n schedule) at h
  rcases h with ⟨hsem, hfree⟩ | ⟨hsem, k, stk, hk, hhold, hothers⟩
  · refine ⟨by omega, ?_⟩
    intro i j si sj hi hj h1 h2
    rw [hfree i si hi] at h1
    cases h1
  · refine ⟨by omega, ?_⟩
    intro i j si sj hi hj h1 h2
    have e1 : i = k := by
      by_contra hne
      rw [hothers i si hne hi] at h1
      cases h1
    have e2 : j = k := by
      by_contra hne
      rw [hothers j sj hne hj] at h2
      cases h2
    rw [e1, e2]

/-- C18 on two invocations: after the first acquired the semaphore and reached
its reserve step while the second tried to acquire it, the second is still
waiting and the channel holds one element. -/
theorem launch_mutual_exclusion_witness :
    (runLaunches 2 [(0, true), (1, true), (0, true), (1, true)]).stages
      = [.reserving, .waiting] ∧
    (runLaunches 2 [(0, true), (1, true), (0, true), (1, true)]).sem ≤ 1 :=
  ⟨by decide, (launch_mutual_exclusion 2 [(0, true), (1, true), (0, true), (1, true)]).1⟩

/-! ## C19: app-id extraction -/

theorem cutAtDot_spec (pre post : List Char) (hpre : '.' ∉ pre) :
    cutAtDot (pre ++ '.' :: post) = some (pre, post) := by
  induction pre with
  | nil => simp [cutAtDot]
  | cons c rest ih =>
    have hc : c ≠ '.' := fun h => hpre (h ▸ List.mem_cons_self _ _)
    have hrest : '.' ∉ rest := fun h => hpre (List.mem_cons_of_mem _ h)
    simp [cutAtDot, hc, ih hrest]

theorem exists_first_dot (l : List Char) (h : '.' ∈ l) :
    ∃ pre post, l = pre ++ '.' :: post ∧ '.' ∉ pre := by
  induction l with
  | nil => simp at h
  | cons c rest ih =>
    by_cases hc : c = '.'
    · exact ⟨[], rest, by simp [hc], by simp⟩
    · rcases List.mem_cons.1 h with h1 | h1
      · exact absurd h1.symm hc
      · obtain ⟨pre, post, he, hpre⟩ := ih h1
        refine ⟨c :: pre, post, by simp [he], ?_⟩
        intro hm
        rcases List.mem_cons.1 hm with h2 | h2
        · exact hc h2.symm
        · exact hpre h2

theorem splitN2_second (name : String) (pre post : List Char)
    (hname : name.data = pre ++ '.' :: post) (hpre : '.' ∉ pre) :
    (SplitN2 name)[1]? = some (String.mk post) := by
  simp [SplitN2, hname, cutAtDot_spec pre post hpre]

theorem persistLoop_no_panic {σ : Type} (store : Store σ) (appId : String)
    (offers : List Offer) (o0 : Offer) (ho : offers[0]? = some o0) :
    ∀ (tasks1 : List Task) (db : σ),
      (persistLoop store appId offers db tasks1).stop ≠ some .panic := by
  intro tasks1
  induction tasks1 with
  | nil => intro db; simp [persistLoop]
  | cons t rest ih =>
    intro db
    unfold persistLoop
    cases hg : store.GetTask db appId t.taskId with
    | error err => simp
    | ok task =>
      cases hc : t.cfg with
      | none => simp
      | some c =>
        simp only [ho]
        split
        · rename_i h
          split at h <;> cases h
        · split
          · simp
          · exact ih _

/-- The store loop stops on the nil-pointer panic only at a handle without
configuration. -/
theorem persistLoop_nilConfig {σ : Type} (store : Store σ) (appId : String)
    (offers : List Offer) :
    ∀ (tasks1 : List Task) (db : σ),
      (persistLoop store appId offers db tasks1).stop = some .nilConfig →
      ∃ t ∈ tasks1, t.cfg = none := by
  intro tasks1
  induction tasks1 with
  | nil => intro db h; simp [persistLoop] at h
  | cons t rest ih =>
    intro db h
    unfold persistLoop at h
    cases hg : store.GetTask db appId t.taskId with
    | error err => simp [hg] at h
    | ok task =>
      cases hc : t.cfg with
      | none => exact ⟨t, List.mem_cons_self _ _, hc⟩
      | some c =>
        simp only [hg, hc] at h
        split at h
        · simp at h
        · split at h
          · simp at h
          · obtain ⟨u, hu, huc⟩ := ih _ h
            exact ⟨u, List.mem_cons_of_mem _ hu, huc⟩

theorem persistLoop_congr {σ : Type} (store store2 : Store σ) (appId : String)
    (offers : List Offer)
    (hget : ∀ db id, store2.GetTask db appId id = store.GetTask db appId id)
    (hupd : ∀ db task, store2.UpdateTask db appId task = store.UpdateTask db appId task) :
    ∀ (tasks1 : List Task) (db : σ),
      persistLoop store2 appId offers db tasks1 = persistLoop store appId offers db tasks1 := by
  intro tasks1
  induction tasks1 with
  | nil => intro db; rfl
  | cons t rest ih =>
    intro db
    unfold persistLoop
    rw [hget]
    cases store.GetTask db appId t.taskId with
    | error err => rfl
    | ok task =>
      cases t.cfg with
      | none => rfl
      | some c =>
        simp only
        split
        · rfl
        · rw [hupd]
          split
          · rfl
          · rw [ih]

theorem awaitLoop_store {σ : Type} (env : Env σ) (store2 : Store σ) :
    ∀ (tasks : List Task) (s : Scheduler),
      awaitLoop { env with store := store2 } s tasks = awaitLoop env s tasks := by
  intro tasks
  induction tasks with
  | nil => intro s; rfl
  | cons t rest ih =>
    intro s
    unfold awaitLoop
    simp only
    split
    · rw [ih]
    · rw [ih]

theorem launch_store_congr {σ : Type} (env : Env σ) (store2 : Store σ) (s : Scheduler) (db : σ)
    (offers : List Offer) (tasks : List Task) (appId : String)
    (h3 : ∀ t1, (assignLoop offers (gatherPorts offers) 0 tasks).1[0]? = some t1 →
      (SplitN2 t1.name)[1]? = some appId)
    (hget : ∀ db id, store2.GetTask db appId id = env.store.GetTask db appId id)
    (hupd : ∀ db task, store2.UpdateTask db appId task = env.store.UpdateTask db appId task) :
    launch { env with store := store2 } s db offers tasks = launch env s db offers tasks := by
  unfold launch
  simp only
  cases h1 : (assignLoop offers (gatherPorts offers) 0 tasks).2 with
  | some stop => rfl
  | none =>
    cases h2 : (assignLoop offers (gatherPorts offers) 0 tasks).1[0]? with
    | none => rfl
    | some t1 =>
      simp only [h3 t1 h2, persistLoop_congr env.store store2 appId offers hget hupd,
        awaitLoop_store]

/-- A run of `launch` on a non-empty batch and a non-empty offer list, the first
task's name yielding the app id `appId`: no index is out of range, a nil-pointer
panic needs a handle without configuration, and every record is written under
`appId`. -/
theorem launch_with_app_id {σ : Type} (env : Env σ) (s : Scheduler) (db : σ)
    (offers : List Offer) (o0 : Offer) (t0 : Task) (rest : List Task) (appId : String)
    (ho : offers[0]? = some o0) (hsplit : (SplitN2 t0.name)[1]? = some appId) :
    (launch env s db offers (t0 :: rest)).ending ≠ .panicked ∧
    ((launch env s db offers (t0 :: rest)).ending = .nilConfig →
      ∃ t ∈ t0 :: rest, t.cfg = none) ∧
    (∀ w ∈ (launch env s db offers (t0 :: rest)).writes, w.1 = appId) ∧
    (∀ t1, (assignLoop offers (gatherPorts offers) 0 (t0 :: rest)).1[0]? = some t1 →
      (SplitN2 t1.name)[1]? = some appId) := by
  have hhead : ∀ t1, (assignLoop offers (gatherPorts offers) 0 (t0 :: rest)).1[0]? = some t1 →
      (SplitN2 t1.name)[1]? = some appId := by
    intro t1 h
    obtain ⟨t, ht, hn, _⟩ := assignLoop_names offers (gatherPorts offers) (t0 :: rest) 0 0 t1 h
    simp only [List.getElem?_cons_zero, Option.some.injEq] at ht
    subst ht
    rw [hn]
    exact hsplit
  have hlen := assignLoop_length offers (gatherPorts offers) (t0 :: rest) 0
  have hsame : ∀ t ∈ (assignLoop offers (gatherPorts offers) 0 (t0 :: rest)).1, t.cfg = none →
      ∃ u ∈ t0 :: rest, u.cfg = none := by
    intro t ht hc
    by_cases hnone : (assignLoop offers (gatherPorts offers) 0 (t0 :: rest)).2 = none
    · obtain ⟨j, hj⟩ := List.getElem?_of_mem ht
      have hjl : j < (t0 :: rest).length := by
        have := (List.getElem?_eq_some.1 hj).1
        omega
      obtain ⟨t1, h1, h2⟩ := assignLoop_done offers (gatherPorts offers) (t0 :: rest) 0 hnone j
        (t0 :: rest)[j] (List.getElem?_eq_getElem hjl)
      rw [hj, Option.some.injEq] at h1
      subst h1
      obtain ⟨_, _, _, _, _, hsome, _⟩ := assignTask_spec h2
      refine ⟨(t0 :: rest)[j], List.getElem_mem _, ?_⟩
      cases hc0 : (t0 :: rest)[j].cfg with
      | none => rfl
      | some c =>
        rw [hsome c hc0] at hc
        cases hc
    · cases hs : (assignLoop offers (gatherPorts offers) 0 (t0 :: rest)).2 with
      | none => exact absurd hs hnone
      | some stop =>
        rcases assignLoop_stop offers (gatherPorts offers) (t0 :: rest) 0 stop hs with
          ⟨_, h2⟩ | ⟨_, h2⟩
        · rw [ho] at h2
          cases h2
        · exact h2
  cases h1 : (assignLoop offers (gatherPorts offers) 0 (t0 :: rest)).2 with
  | some stop =>
    have hend : (launch env s db offers (t0 :: rest)).ending = stop.ending ∧
        (launch env s db offers (t0 :: rest)).writes = [] := by
      simp [launch, h1]
    rcases assignLoop_stop offers (gatherPorts offers) (t0 :: rest) 0 stop h1 with
      ⟨_, h2⟩ | ⟨h2, h3⟩
    · rw [ho] at h2
      cases h2
    · subst h2
      refine ⟨by rw [hend.1]; simp [Stop.ending], fun _ => h3, ?_, hhead⟩
      intro w hw
      rw [hend.2] at hw
      simp at hw
  | none =>
    have hpos : 0 < (assignLoop offers (gatherPorts offers) 0 (t0 :: rest)).1.length := by
      rw [hlen]; simp
    have h2 := List.getElem?_eq_getElem hpos
    have h3 := hhead _ h2
    have hnp := persistLoop_no_panic env.store appId offers o0 ho
      (assignLoop offers (gatherPorts offers) 0 (t0 :: rest)).1 db
    have hwr : ∀ w ∈ (launch env s db offers (t0 :: rest)).writes, w.1 = appId := by
      intro w hw
      rcases launch_shape env s db offers (t0 :: rest) with ⟨he, _⟩ | ⟨t1, appId1, _, g2, g3, hwe, _⟩
      · rw [he] at hw
        simp at hw
      · rw [h2, Option.some.injEq] at g2
        subst g2
        rw [h3, Option.some.injEq] at g3
        subst g3
        rw [hwe] at hw
        obtain ⟨j, hj⟩ := List.getElem?_of_mem hw
        obtain ⟨_, _, _, _, happ, _⟩ := (persistLoop_spec env.store appId offers _ db).2 j w hj
        exact happ
    refine ⟨?_, ?_, hwr, hhead⟩
    · unfold launch
      simp only [h1, h2, h3, ho]
      cases hs : (persistLoop env.store appId offers db
          (assignLoop offers (gatherPorts offers) 0 (t0 :: rest)).1).stop with
      | none =>
        simp only
        cases env.Send (Call.accept s.frameworkId (offers.map fun offer => offer.id)
            (assignLoop offers (gatherPorts offers) 0 (t0 :: rest)).1) with
        | error e => simp
        | ok code =>
          simp only
          split
          · simp
          · split <;> simp
      | some st =>
        cases st with
        | panic => exact absurd hs hnp
        | nilConfig => simp [Stop.ending]
        | error e => simp [Stop.ending]
    · intro hend
      have hs : (persistLoop env.store appId offers db
          (assignLoop offers (gatherPorts offers) 0 (t0 :: rest)).1).stop = some .nilConfig := by
        revert hend
        unfold launch
        simp only [h1, h2, h3, ho]
        cases hs : (persistLoop env.store appId offers db
            (assignLoop offers (gatherPorts offers) 0 (t0 :: rest)).1).stop with
        | none =>
          simp only
          cases env.Send (Call.accept s.frameworkId (offers.map fun offer => offer.id)
              (assignLoop offers (gatherPorts offers) 0 (t0 :: rest)).1) with
          | error e => simp
          | ok code =>
            simp only
            split
            · simp
            · split <;> simp
        | some st =>
          cases st with
          | panic => simp [Stop.ending]
          | nilConfig => simp
          | error e => simp [Stop.ending]
      obtain ⟨t, ht, hc⟩ := persistLoop_nilConfig env.store appId offers _ db hs
      exact hsame t ht hc

/-- C19: for a non-empty batch whose first task's name contains a `.` and a
non-empty offer list, the name splits at its first `.` into a part `pre`
without `.` and a part `post`; in `launch` no index is out of range (neither
`tasks[0]`, nor the second part of the split name, nor `offers[0]`); the only
panic left is the nil-pointer one, which needs a handle without configuration;
`post`, whole, is the app id of every record written and the only app id under
which the store is read and written (replacing the store by one that agrees
with it under that app id changes nothing); and `LaunchTasks` calls `launch`
with a non-empty offer list only, so no index is out of range there either. -/
theorem launch_app_id_extraction {σ : Type} (env : Env σ) (s : Scheduler) (db : σ)
    (offers : List Offer) (t0 : Task) (rest : List Task)
    (hdot : '.' ∈ t0.name.data) (ho : offers ≠ []) :
    ∃ pre post, t0.name.data = pre ++ '.' :: post ∧ '.' ∉ pre ∧
      (launch env s db offers (t0 :: rest)).ending ≠ .panicked ∧
      ((∀ t ∈ t0 :: rest, t.cfg ≠ none) →
        (launch env s db offers (t0 :: rest)).ending ≠ .nilConfig) ∧
      (∀ w ∈ (launch env s db offers (t0 :: rest)).writes, w.1 = String.mk post) ∧
      (∀ store2 : Store σ,
        (∀ db id, store2.GetTask db (String.mk post) id
          = env.store.GetTask db (String.mk post) id) →
        (∀ db task, store2.UpdateTask db (String.mk post) task
          = env.store.UpdateTask db (String.mk post) task) →
        launch { env with store := store2 } s db offers (t0 :: rest)
          = launch env s db offers (t0 :: rest)) ∧
      (∀ (fuel : Nat) (a : Agent) (offers1 : List Offer),
        selectLoop env s t0.cfg fuel 0 [] = .chosen a offers1 →
        offers1 ≠ [] ∧ (LaunchTasks env fuel s db (t0 :: rest)).ending ≠ .panicked ∧
        ((∀ t ∈ t0 :: rest, t.cfg ≠ none) →
          (LaunchTasks env fuel s db (t0 :: rest)).ending ≠ .nilConfig)) := by
  obtain ⟨pre, post, hname, hpre⟩ := exists_first_dot _ hdot
  have hsplit := splitN2_second t0.name pre post hname hpre
  have hfirst : ∀ l : List Offer, l ≠ [] → ∃ o0, l[0]? = some o0 := by
    intro l hl
    cases l with
    | nil => exact absurd rfl hl
    | cons o0 tl => exact ⟨o0, List.getElem?_cons_zero⟩
  have hconf : ∀ (e : Ending), (e = .nilConfig → ∃ t ∈ t0 :: rest, t.cfg = none) →
      (∀ t ∈ t0 :: rest, t.cfg ≠ none) → e ≠ .nilConfig := by
    intro e h hall he
    obtain ⟨t, ht, hc⟩ := h he
    exact hall t ht hc
  obtain ⟨o0, ho0⟩ := hfirst offers ho
  obtain ⟨hne, hnil, hw, hhead⟩ :=
    launch_with_app_id env s db offers o0 t0 rest (String.mk post) ho0 hsplit
  refine ⟨pre, post, hname, hpre, hne, hconf _ hnil, hw, ?_, ?_⟩
  · intro store2 hget hupd
    exact launch_store_congr env store2 s db offers (t0 :: rest) (String.mk post) hhead hget hupd
  · intro fuel a offers1 hsel
    obtain ⟨e1, e2, _⟩ := selectLoop_chosen env s t0.cfg fuel 0 [] offers1 a hsel
    have hne1 : offers1 ≠ [] := e1 ▸ e2
    obtain ⟨o1, ho1⟩ := hfirst offers1 hne1
    rw [launchTasks_chosen env fuel s db t0 rest a offers1 hsel]
    obtain ⟨hne2, hnil2, _, _⟩ :=
      launch_with_app_id env (s.reserve a offers1 (t0 :: rest)) db offers1 o1 t0 rest
        (String.mk post) ho1 hsplit
    exact ⟨hne1, hne2, hconf _ hnil2⟩

/-- C19 on a task named `0.my.app`: the records are written under the app id
`my.app`. -/
theorem launch_app_id_extraction_witness :
    ('.' ∈ ("0.my.app" : String).data ∧ [offerO1] ≠ []) ∧
    (launch runningEnv reservedRegistry storedTasks [offerO1]
      [NewTask (some ⟨"", "host", 0⟩) "t1" "0.my.app"]).writes
      = [("my.app", ⟨"t1", "a1", "h1", 31000⟩)] ∧
    ∃ pre post, ("0.my.app" : String).data = pre ++ '.' :: post ∧ '.' ∉ pre ∧
      (launch runningEnv reservedRegistry storedTasks [offerO1]
        [NewTask (some ⟨"", "host", 0⟩) "t1" "0.my.app"]).ending ≠ .panicked :=
  ⟨⟨by decide, by decide⟩, by decide,
    (launch_app_id_extraction runningEnv reservedRegistry storedTasks [offerO1]
      (NewTask (some ⟨"", "host", 0⟩) "t1" "0.my.app") [] (by decide) (by decide)).imp
      fun _ h => h.imp fun _ h2 => ⟨h2.1, h2.2.1, h2.2.2.1⟩⟩
end Swan
